import Mathlib

/-!
Verification of the TrueCheck news-aggregation pipeline
(`services/news_aggregator.py` together with the `News` row type of
`models/database.py`).

The Python code is embedded shallowly: every pure computation becomes a Lean
function, the stateful parts (the SQL storage, the per-source statistics, the
persisted configuration document) become explicit state passed through the
functions, and the network is an oracle supplied as a parameter.  Machine
behaviour that the pipeline only observes through a fixed interface (HTTP
responses, parsed feed entries, parsed JSON-LD objects) is represented by the
data the Python code extracts from it.
-/

namespace TrueCheck

/-! ### String primitives

The Python code manipulates strings with `in`, `lower`, slicing, `startswith`,
`replace` and `rstrip`.  We model strings as Lean `String`s and implement the
Python primitives over their character lists, so that every definition reduces
in the kernel. -/

/-- `matchAt pre l` is true when `pre` is an initial segment of `l`. -/
def matchAt : List Char → List Char → Bool
  | [], _ => true
  | _ :: _, [] => false
  | a :: xs, b :: ys => a == b && matchAt xs ys

/-- `hasSub x l` is true when `x` occurs contiguously inside `l`. -/
def hasSub (x : List Char) : List Char → Bool
  | [] => matchAt x []
  | c :: rest => matchAt x (c :: rest) || hasSub x rest

/-- Python `x in s` (substring containment). -/
def strIn (x s : String) : Bool := hasSub x.toList s.toList

/-- Python `s.startswith(pre)`. -/
def strStarts (s pre : String) : Bool := matchAt pre.toList s.toList

/-- Python `s[:n]`. -/
def strTake (s : String) (n : Nat) : String := String.mk (s.toList.take n)

/-- Python `s.lower()` (ASCII case folding, as `Char.toLower`). -/
def lowerStr (s : String) : String := String.mk (s.toList.map Char.toLower)

/-- Python `s.rstrip('/')`. -/
def rstripSlash (s : String) : String :=
  String.mk ((s.toList.reverse.dropWhile (fun c => c == '/')).reverse)

/-- Replace every (non-overlapping, leftmost-first) occurrence of `pat` by
`rep`, as Python `str.replace` does for a non-empty pattern. -/
def replaceL (pat rep : List Char) : List Char → List Char
  | [] => []
  | c :: rest =>
    if matchAt pat (c :: rest) && !pat.isEmpty then
      rep ++ replaceL pat rep (List.drop (pat.length - 1) rest)
    else
      c :: replaceL pat rep rest
termination_by l => l.length
decreasing_by
  · simp [List.length_drop]; omega
  · simp

/-- Python `s.replace(pat, rep)` (non-empty `pat`). -/
def strReplace (s pat rep : String) : String :=
  String.mk (replaceL pat.toList rep.toList s.toList)

/-- Python `name.lower().replace(" ", "-")`, the tag slug used by every source. -/
def slug (s : String) : String := strReplace (lowerStr s) " " "-"

/-! ### Verdict classification

Each source variant carries its own hard-coded false/true term lists
(`news_aggregator.py` lines 103-104, 165-166 and 282-283); the classification
logic itself — lower-case, false terms first, then true terms, else `Parcial` —
is shared. -/

inductive Verdict where
  | Verdadeiro
  | Falso
  | Parcial
deriving DecidableEq, Repr

/-- The shared first-match-wins scan: false terms first, then true terms,
otherwise `Parcial`. -/
def classifyWith (falseTerms trueTerms : List String) (s : String) : Verdict :=
  let l := lowerStr s
  if falseTerms.any (fun t => strIn t l) then Verdict.Falso
  else if trueTerms.any (fun t => strIn t l) then Verdict.Verdadeiro
  else Verdict.Parcial

/-- `GoogleFactCheckSource._fetch_lang` line 103. -/
def googleFalseTerms : List String :=
  ["falso", "false", "fake", "mentira", "incorrect", "incorrecto", "faux"]

/-- `GoogleFactCheckSource._fetch_lang` line 104. -/
def googleTrueTerms : List String :=
  ["verdadeiro", "true", "correct", "correto", "vrai", "autêntico"]

/-- `RSSFeedSource.fetch` line 165. -/
def rssFalseTerms : List String :=
  ["falso", "mentira", "fake", "incorrecto", "enganoso", "false"]

/-- `RSSFeedSource.fetch` line 166. -/
def rssTrueTerms : List String :=
  ["verdadeiro", "correto", "autêntico", "true", "correct"]

/-- `ClaimReviewScraperSource._parse_article` line 282. -/
def scraperFalseTerms : List String :=
  ["falso", "false", "fake", "incorrect", "mentira"]

/-- `ClaimReviewScraperSource._parse_article` line 283. -/
def scraperTrueTerms : List String :=
  ["verdadeiro", "true", "correct", "correto"]

/-- Rating classification of the Google API source (lines 100-109). -/
def googleClassify (rating : String) : Verdict :=
  classifyWith googleFalseTerms googleTrueTerms rating

/-- Text classification of the RSS source (lines 162-169), applied to
`title + " " + summary`. -/
def rssClassify (text : String) : Verdict :=
  classifyWith rssFalseTerms rssTrueTerms text

/-- Rating classification of the scraper source (lines 279-283). -/
def scraperClassify (rating : String) : Verdict :=
  classifyWith scraperFalseTerms scraperTrueTerms rating

/-- The single fixed false-term list asserted by the specification
(§4.1: falso, false, fake, mentira, incorrect, incorrecto, faux, enganoso);
kept separate from the per-source lists above so the two can be compared. -/
def specFalseTerms : List String :=
  ["falso", "false", "fake", "mentira", "incorrect", "incorrecto", "faux", "enganoso"]

/-- The single fixed true-term list asserted by the specification
(§4.1: verdadeiro, true, correct, correto, vrai, autêntico). -/
def specTrueTerms : List String :=
  ["verdadeiro", "true", "correct", "correto", "vrai", "autêntico"]

/-! ### The stored record and the storage collaborator

`News` (`models/database.py` lines 108-120).  The database-assigned `id` and
the never-set `image_url` are omitted; `published_at` timestamps are abstract
instants represented by `Nat`; the `tags` JSON string is kept as the list it
serialises. -/

structure News where
  title : String
  summary : String
  url : String
  published_at : Nat
  source : String
  verdict : Verdict
  language : String
  category : String
  tags : List String
deriving DecidableEq, Repr

/-- The storage collaborator is the list of stored rows, in insertion order. -/
def urls (st : List News) : List String := st.map (fun n => n.url)

/-- `session.exec(select(News).where(News.url == url)).first()` viewed as a
boolean: does a stored row with this url exist?  (Pending `session.add`s are
visible to the next query, so the model folds them into the list.) -/
def existsByUrl (st : List News) (u : String) : Bool := st.any (fun n => n.url == u)

/-! ### Run statistics -/

/-- `NewsSource.stats` (lines 28, 35-38).  `last_run` keeps the abstract
instant of the last run, `none` before any run. -/
structure Stats where
  last_run : Option Nat
  last_count : Nat
  total_count : Nat
deriving DecidableEq, Repr

/-- `NewsSource.update_stats` (lines 35-38). -/
def updateStats (now : Nat) (s : Stats) (count : Nat) : Stats :=
  { last_run := some now, last_count := count, total_count := s.total_count + count }

/-- The result of one `fetch` call: the storage after the call, the returned
count of newly stored rows, and the network requests issued (by URL). -/
structure RunOut where
  news : List News
  cnt : Nat
  reqs : List String
deriving DecidableEq, Repr

/-- An HTTP exchange as the pipeline observes it: either the client raised
(timeout, refused connection, malformed transport data), or a response with a
status code and the already-parsed body the Python code extracts from it. -/
inductive HttpDoc (α : Type) where
  | netError : HttpDoc α
  | response (status : Nat) (body : α) : HttpDoc α

/-! ### The Google Fact Check API source (`GoogleFactCheckSource`, lines 40-130) -/

/-- One claim as `_fetch_lang` reads it out of the response JSON
(lines 89-95).  `reviewDate` distinguishes an absent date (fall back to now),
a present-but-unparseable one (`datetime.fromisoformat` raises, the per-item
`except` skips the claim), and a parsed instant.  Any other per-item
exception (e.g. an empty `claimReview` list) is observationally the same
skip and is modelled by the unparseable-date case. -/
structure ApiClaim where
  text : String
  publisher : String
  url : String
  title : Option String
  reviewDate : Option (Option Nat)
  textualRating : String
deriving DecidableEq, Repr

/-- The claim-search response body: status code plus the `claims` array. -/
structure ApiResponse where
  status : Nat
  claims : List ApiClaim

/-- Does the per-item loop reach its `session.add` for this claim (given a
url not yet stored)?  False when the url is empty (line 97) or the review
date fails to parse (line 120's `fromisoformat` inside the per-item `try`). -/
def apiInsertable (c : ApiClaim) : Bool :=
  c.url != "" && c.reviewDate != some none

/-- `claim_review.get("title", claim_text[:100]) or claim_text[:100]`
(line 93): a missing or falsy title falls back to the truncated claim text. -/
def googleTitle (c : ApiClaim) : String :=
  match c.title with
  | some t => if t = "" then strTake c.text 100 else t
  | none => strTake c.text 100

/-- The per-claim body of `_fetch_lang`'s loop (lines 87-128), acting on the
pair (storage, added_count). -/
def googleItem (now : Nat) (lang : String) (p : List News × Nat) (c : ApiClaim) :
    List News × Nat :=
  let title := googleTitle c
  if c.url = "" then p
  else
    let verdict := googleClassify c.textualRating
    if existsByUrl p.1 c.url then p
    else
      match c.reviewDate with
      | some none => p
      | some (some d) =>
        (p.1 ++ [{ title := title, summary := c.text, url := c.url,
                   published_at := d, source := c.publisher, verdict := verdict,
                   language := lang, category := "Geral",
                   tags := ["fact-check", "google-api", slug c.publisher] }], p.2 + 1)
      | none =>
        (p.1 ++ [{ title := title, summary := c.text, url := c.url,
                   published_at := now, source := c.publisher, verdict := verdict,
                   language := lang, category := "Geral",
                   tags := ["fact-check", "google-api", slug c.publisher] }], p.2 + 1)

/-- `_fetch_lang` (lines 69-130): on a 200 response process the claims,
otherwise return 0 added. -/
def fetchLang (now : Nat) (lang : String) (resp : ApiResponse) (st : List News) :
    List News × Nat :=
  if resp.status = 200 then resp.claims.foldl (googleItem now lang) (st, 0)
  else (st, 0)

/-- The per-language step of `GoogleFactCheckSource.fetch`'s loop
(lines 59-64): an upstream of `none` models `client.get` or `response.json()`
raising, which the per-language `except` turns into 0 added for that
language. -/
def googleLangStep (now : Nat) (up : String → Option ApiResponse)
    (p : List News × Nat) (lang : String) : List News × Nat :=
  match up lang with
  | none => p
  | some resp =>
    let q := fetchLang now lang resp p.1
    (q.1, p.2 + q.2)

/-- The storage/count effect of `GoogleFactCheckSource.fetch` once the
enabled and API-key guards have passed: the loop over languages. -/
def googleRun (now : Nat) (up : String → Option ApiResponse) (langs : List String)
    (st : List News) : List News × Nat :=
  langs.foldl (googleLangStep now up) (st, 0)

/-- The claim-search endpoint (`config.py` line 39 / literal at line 72). -/
def claimsSearchEndpoint : String :=
  "https://factchecktools.googleapis.com/v1alpha1/claims:search"

/-- The GET requests issued by the language loop, one per configured
language (issued whether or not the response succeeds). -/
def googleReqs (langs : List String) : List String :=
  langs.map (fun lang => claimsSearchEndpoint ++ "?languageCode=" ++ lang)

/-- `GoogleFactCheckSource`: its mutable state.  `enabled` and `languages`
come from the persisted configuration; `stats` is the run bookkeeping. -/
structure GoogleSource where
  enabled : Bool
  languages : List String
  stats : Stats
deriving DecidableEq, Repr

/-- `GoogleFactCheckSource.fetch` (lines 47-67): disabled sources and a
missing API key (`settings.GOOGLE_FACT_CHECK_API_KEY`, default `""`) return 0
before any network access; otherwise run the language loop and record the
statistics. -/
def googleFetch (apiKey : String) (now : Nat) (up : String → Option ApiResponse)
    (g : GoogleSource) (st : List News) : GoogleSource × RunOut :=
  if !g.enabled then (g, ⟨st, 0, []⟩)
  else if apiKey = "" then (g, ⟨st, 0, []⟩)
  else
    let p := googleRun now up g.languages st
    ({ g with stats := updateStats now g.stats p.2 }, ⟨p.1, p.2, googleReqs g.languages⟩)

/-! ### The RSS source (`RSSFeedSource`, lines 132-198) -/

/-- One feed entry as the per-entry loop reads it (lines 154-176).
`summaryRaw` is `entry.summary or entry.description` as it appears in the
feed; `summaryText` is `BeautifulSoup(summaryRaw).get_text()`, the external
HTML stripper's output.  `ok = false` models a per-entry exception (a missing
`link`/`title` attribute, etc.), swallowed by the per-entry `except` at
line 191. -/
structure RssEntry where
  link : String
  title : String
  summaryRaw : String
  summaryText : String
  date : Option Nat
  entryTags : List String
  ok : Bool
deriving DecidableEq, Repr

/-- The per-entry body of `RSSFeedSource.fetch`'s loop (lines 155-191). -/
def rssEntryStep (now : Nat) (name lang : String) (p : List News × Nat)
    (e : RssEntry) : List News × Nat :=
  if !e.ok then p
  else if existsByUrl p.1 e.link then p
  else
    let verdict := rssClassify (e.title ++ " " ++ e.summaryRaw)
    let pub := e.date.getD now
    (p.1 ++ [{ title := e.title, summary := strTake e.summaryText 500,
               url := e.link, published_at := pub, source := name,
               verdict := verdict, language := lang, category := "Fact Check",
               tags := (["rss", slug name] ++ e.entryTags).take 5 }], p.2 + 1)

/-- `RSSFeedSource`: its mutable state plus its static feed definition. -/
structure RssSource where
  name : String
  feed_url : String
  enabled : Bool
  language : String
  stats : Stats
deriving DecidableEq, Repr

/-- `RSSFeedSource.fetch` (lines 140-198).  Note the early `return 0` on a
non-200 status (line 149) leaves the statistics untouched, while a raised
network error reaches the `update_stats` call at line 197 through the
`except` at line 194. -/
def rssFetch (now : Nat) (up : HttpDoc (List RssEntry)) (s : RssSource)
    (st : List News) : RssSource × RunOut :=
  if !s.enabled then (s, ⟨st, 0, []⟩)
  else
    match up with
    | .netError => ({ s with stats := updateStats now s.stats 0 }, ⟨st, 0, [s.feed_url]⟩)
    | .response status entries =>
      if status ≠ 200 then (s, ⟨st, 0, [s.feed_url]⟩)
      else
        let p := (entries.take 15).foldl (rssEntryStep now s.name s.language) (st, 0)
        ({ s with stats := updateStats now s.stats p.2 }, ⟨p.1, p.2, [s.feed_url]⟩)

/-! ### The ClaimReview scraper source (`ClaimReviewScraperSource`, lines 200-305) -/

/-- `source_url.replace('https://', '').split('/')[0]` (line 227): the seed's
host part as the code computes it. -/
def hostPart (u : String) : String :=
  String.mk ((strReplace u "https://" "").toList.takeWhile (fun c => c ≠ '/'))

/-- The href normalisation of the link-collection loop (lines 223-226):
discard trivial hrefs, resolve root-relative ones by concatenation to the
rstripped seed URL, keep absolute `http…` ones, discard the rest. -/
def normHref (seed href : String) : Option String :=
  if href = "" || href.length < 10 || strStarts href "#" || strStarts href "javascript:" then
    none
  else if strStarts href "/" then some (rstripSlash seed ++ href)
  else if !strStarts href "http" then none
  else some href

/-- The relatedness filter of line 227: keep the link when the full seed URL
or the seed's host part occurs in it. -/
def keepLink (seed l : String) : Bool := strIn seed l || strIn (hostPart seed) l

/-- First-occurrence deduplication, standing in for the Python `set`
(`links_to_check`); the model fixes the set's iteration order to insertion
order, which is stable within one process. -/
def dedupAux (seen : List String) : List String → List String
  | [] => []
  | x :: xs => if seen.contains x then dedupAux seen xs else x :: dedupAux (x :: seen) xs

/-- The collected candidate links of one seed page (lines 220-228). -/
def collectLinks (seed : String) (hrefs : List String) : List String :=
  dedupAux [] ((hrefs.filterMap (normHref seed)).filter (keepLink seed))

/-- The relevance score of a candidate link (lines 233-239). -/
def scoreLink (l : String) : Nat :=
  let low := lowerStr l
  (if strIn "fact-check" low || strIn "factcheck" low then 5 else 0) +
  (if ["verdadeiro", "falso", "enganoso", "false", "true"].any (fun k => strIn k low)
   then 2 else 0) +
  (if l.length > 50 then 1 else 0)

/-- Stable insertion into a descending-by-score list. -/
def insDesc (x : Nat × String) : List (Nat × String) → List (Nat × String)
  | [] => [x]
  | y :: ys => if y.1 > x.1 then y :: insDesc x ys else x :: y :: ys

/-- Stable descending sort by score, as Python's stable
`sort(key=..., reverse=True)` (line 241). -/
def sortDesc : List (Nat × String) → List (Nat × String)
  | [] => []
  | x :: xs => insDesc x (sortDesc xs)

/-- `valid_links` (lines 230-242): score, sort descending, take the top 12,
keep only positive scores. -/
def validLinks (links : List String) : List String :=
  let scored := links.map (fun l => (scoreLink l, l))
  (((sortDesc scored).take 12).filter (fun p => p.1 > 0)).map (fun p => p.2)

/-- One JSON-LD object as `_parse_article` reads it (lines 271-286).
`datePub` distinguishes absent, present-but-unparseable (the inner
`try/except` at lines 287-288 falls back to now) and parsed instants. -/
structure LdObj where
  isClaimReview : Bool
  itemName : Option String
  itemText : Option String
  altName : Option String
  ratingValue : Option String
  authorName : Option String
  datePub : Option (Option Nat)
deriving DecidableEq, Repr

/-- One `<script type="application/ld+json">` block: either `json.loads`
raises (the per-script `except` at line 303 skips it) or it yields a list of
objects (a flattened `@graph` array or a singleton). -/
inductive LdBlock where
  | malformed : LdBlock
  | objs (l : List LdObj) : LdBlock
deriving DecidableEq, Repr

/-- A fetched review page: `soup.title.string` and the JSON-LD blocks. -/
structure ArticlePage where
  pageTitle : Option String
  blocks : List LdBlock
deriving DecidableEq, Repr

/-- Python `a or b` for an optional string against a string default
(falsy `""` and `None` both fall through). -/
def orElseStr (a : Option String) (b : String) : String :=
  match a with
  | some s => if s = "" then b else s
  | none => b

/-- Python `a or b` for two optional strings. -/
def orElseOpt (a b : Option String) : Option String :=
  match a with
  | some s => if s = "" then b else some s
  | none => b

/-- The first object with `@type == 'ClaimReview'` in one block's list. -/
def firstCR : List LdObj → Option LdObj
  | [] => none
  | o :: os => if o.isClaimReview then some o else firstCR os

/-- The first ClaimReview object across the page's blocks (malformed blocks
skipped), the object `_parse_article` builds its record from. -/
def findClaimReview : List LdBlock → Option LdObj
  | [] => none
  | LdBlock.malformed :: bs => findClaimReview bs
  | LdBlock.objs l :: bs =>
    match firstCR l with
    | some o => some o
    | none => findClaimReview bs

/-- The record `_parse_article` builds from a ClaimReview object
(lines 272-300). -/
def buildFromCR (selfName lang : String) (now : Nat) (pageTitle : Option String)
    (url : String) (c : LdObj) : News :=
  let claim := orElseStr c.itemName (orElseStr c.itemText "Fact Check")
  let rating := orElseOpt c.altName c.ratingValue
  let author := orElseStr c.authorName selfName
  let verdict := match rating with
    | some r => if r = "" then Verdict.Parcial else scraperClassify r
    | none => Verdict.Parcial
  let title := match pageTitle with
    | some t => t
    | none => strTake claim 100
  let pub := match c.datePub with
    | some (some d) => d
    | _ => now
  { title := title,
    summary := if claim = "" then "Verificação" else strTake claim 500,
    url := url, published_at := pub, source := author, verdict := verdict,
    language := lang, category := "Fact Check",
    tags := ["scraped", "claim-review", slug author] }

/-- `ClaimReviewScraperSource._parse_article` (lines 260-305): the record the
page contributes, if any (at most one per page — the first ClaimReview object
wins and the function returns 1). -/
def parseArticle (selfName lang : String) (now : Nat) (page : ArticlePage)
    (url : String) : Option News :=
  (findClaimReview page.blocks).map (buildFromCR selfName lang now page.pageTitle url)

/-- The per-link body of the scraper's loop over `valid_links`
(lines 244-251), acting on (storage, added_count, requests).  The
existence-by-url check happens before the link is fetched; a network error on
the link is swallowed per link. -/
def scrapeLinkStep (selfName lang : String) (now : Nat)
    (linkUp : String → HttpDoc ArticlePage)
    (p : List News × Nat × List String) (link : String) :
    List News × Nat × List String :=
  if existsByUrl p.1 link then p
  else
    match linkUp link with
    | .netError => (p.1, p.2.1, p.2.2 ++ [link])
    | .response status page =>
      if status = 200 then
        match parseArticle selfName lang now page link with
        | some n => (p.1 ++ [n], p.2.1 + 1, p.2.2 ++ [link])
        | none => (p.1, p.2.1, p.2.2 ++ [link])
      else (p.1, p.2.1, p.2.2 ++ [link])

/-- The per-seed body of `ClaimReviewScraperSource.fetch`'s loop
(lines 213-253): fetch the seed page, collect and rank its links, then walk
the surviving links.  A seed-level error or non-200 status skips the seed. -/
def scrapeSeedStep (selfName lang : String) (now : Nat)
    (seedUp : String → HttpDoc (List String)) (linkUp : String → HttpDoc ArticlePage)
    (p : List News × Nat × List String) (seed : String) :
    List News × Nat × List String :=
  match seedUp seed with
  | .netError => (p.1, p.2.1, p.2.2 ++ [seed])
  | .response status hrefs =>
    if status = 200 then
      (validLinks (collectLinks seed hrefs)).foldl
        (scrapeLinkStep selfName lang now linkUp) (p.1, p.2.1, p.2.2 ++ [seed])
    else (p.1, p.2.1, p.2.2 ++ [seed])

/-- `ClaimReviewScraperSource`: its mutable state plus its static seed list. -/
structure ScrapeSource where
  name : String
  urls : List String
  enabled : Bool
  language : String
  stats : Stats
deriving DecidableEq, Repr

/-- `ClaimReviewScraperSource.fetch` (lines 208-258). -/
def scrapeFetch (now : Nat) (seedUp : String → HttpDoc (List String))
    (linkUp : String → HttpDoc ArticlePage) (s : ScrapeSource) (st : List News) :
    ScrapeSource × RunOut :=
  if !s.enabled then (s, ⟨st, 0, []⟩)
  else
    let p := s.urls.foldl (scrapeSeedStep s.name s.language now seedUp linkUp) (st, 0, [])
    ({ s with stats := updateStats now s.stats p.2.1 }, ⟨p.1, p.2.1, p.2.2⟩)

/-! ### The aggregator (`NewsAggregator`, lines 307-410) -/

/-- A configured source: one of the three variants. -/
inductive Source where
  | google (g : GoogleSource)
  | rss (r : RssSource)
  | scrape (s : ScrapeSource)
deriving DecidableEq, Repr

/-- The source's enabled flag. -/
def Source.enabled : Source → Bool
  | .google g => g.enabled
  | .rss r => r.enabled
  | .scrape s => s.enabled

/-- `self.sources[source_id].enabled = enabled` (line 394). -/
def Source.setEnabled : Source → Bool → Source
  | .google g, b => .google { g with enabled := b }
  | .rss r, b => .rss { r with enabled := b }
  | .scrape s, b => .scrape { s with enabled := b }

/-- The stats of a source. -/
def Source.stats : Source → Stats
  | .google g => g.stats
  | .rss r => r.stats
  | .scrape s => s.stats

/-- Everything the sources and the aggregator read from outside the process:
the configured API key (`""` means not configured), and the network as seen
through each kind of request.  `rssUp` is keyed by feed URL, `seedUp` and
`linkUp` by page URL. -/
structure Env where
  apiKey : String
  googleUp : String → Option ApiResponse
  rssUp : String → HttpDoc (List RssEntry)
  seedUp : String → HttpDoc (List String)
  linkUp : String → HttpDoc ArticlePage

/-- Dispatch of the polymorphic `source.fetch(session)` call. -/
def fetchSource (env : Env) (now : Nat) : Source → List News → Source × RunOut
  | .google g, st =>
    let r := googleFetch env.apiKey now env.googleUp g st
    (.google r.1, r.2)
  | .rss s, st =>
    let r := rssFetch now (env.rssUp s.feed_url) s st
    (.rss r.1, r.2)
  | .scrape s, st =>
    let r := scrapeFetch now env.seedUp env.linkUp s st
    (.scrape r.1, r.2)

/-- The outcome of one `update_all` pass: the sources with their refreshed
statistics, the storage, the total as accumulated by `total += fetch(...)`,
the per-source contribution trace (source id, count added by that source, in
run order), and the requests issued. -/
structure AggOut where
  sources : List (String × Source)
  news : List News
  total : Nat
  trace : List (String × Nat)
  reqs : List String

/-- The loop of `NewsAggregator.update_all` (lines 399-407): run the sources
in dictionary order; `crash k = true` models `source.fetch` raising an
unexpected exception for source `k`, which the per-source `except` catches —
no increment of `total`, remaining sources still run. -/
def runSources (env : Env) (now : Nat) (crash : String → Bool) :
    List (String × Source) → List News → AggOut
  | [], st => ⟨[], st, 0, [], []⟩
  | (k, src) :: rest, st =>
    if src.enabled && !crash k then
      let f := fetchSource env now src st
      let r := runSources env now crash rest f.2.news
      ⟨(k, f.1) :: r.sources, r.news, f.2.cnt + r.total, (k, f.2.cnt) :: r.trace,
       f.2.reqs ++ r.reqs⟩
    else
      let r := runSources env now crash rest st
      ⟨(k, src) :: r.sources, r.news, r.total, (k, 0) :: r.trace, r.reqs⟩

/-- `NewsAggregator.update_all` (lines 399-409): run every source, then write
the configuration document once (`save_config`, line 408).  The second
component counts configuration writes. -/
def update_all (env : Env) (now : Nat) (crash : String → Bool)
    (ag : List (String × Source)) (st : List News) : AggOut × Nat :=
  (runSources env now crash ag st, 1)

/-- `NewsAggregator.toggle_source` (lines 392-397): flip the flag and persist
when the id is known, otherwise return `False` and do nothing.  The result is
(sources, returned boolean, configuration writes). -/
def toggle_source (ag : List (String × Source)) (id : String) (enabled : Bool) :
    List (String × Source) × Bool × Nat :=
  if ag.any (fun p => p.1 == id) then
    (ag.map (fun p => if p.1 == id then (p.1, p.2.setEnabled enabled) else p), true, 1)
  else (ag, false, 0)

/-! ### Operation sequences against the pipeline (for the uniqueness
invariant): any interleaving of `update_all`, `toggle_source` and individual
`fetch` calls, run sequentially against the storage collaborator. -/

/-- One pipeline operation. -/
inductive Op where
  | update (env : Env) (now : Nat) (crash : String → Bool)
  | toggle (id : String) (enabled : Bool)
  | fetchOne (id : String) (env : Env) (now : Nat)

/-- Dictionary lookup of a source by id. -/
def lookupSrc : List (String × Source) → String → Option Source
  | [], _ => none
  | (k, s) :: rest, id => if k == id then some s else lookupSrc rest id

/-- Replace the source stored under an id. -/
def setSrc (ag : List (String × Source)) (id : String) (s : Source) :
    List (String × Source) :=
  ag.map (fun p => if p.1 == id then (p.1, s) else p)

/-- Apply one operation to (sources, storage). -/
def applyOp (p : List (String × Source) × List News) :
    Op → List (String × Source) × List News
  | .update env now crash =>
    let o := runSources env now crash p.1 p.2
    (o.sources, o.news)
  | .toggle id b => ((toggle_source p.1 id b).1, p.2)
  | .fetchOne id env now =>
    match lookupSrc p.1 id with
    | none => p
    | some src =>
      let f := fetchSource env now src p.2
      (setSrc p.1 id f.1, f.2.news)

/-- Apply a sequence of operations. -/
def applyOps (ops : List Op) (p : List (String × Source) × List News) :
    List (String × Source) × List News :=
  ops.foldl applyOp p

/-! ### Insertable candidates

For the idempotence analysis we name, per source, the urls of the candidates
whose processing reaches `session.add` when the url is not yet stored.  These
sets are computed from the same upstream data the fetch functions consume. -/

/-- The insertable candidate urls one language's API response contributes. -/
def langGood (resp : Option ApiResponse) : List String :=
  match resp with
  | none => []
  | some r =>
    if r.status = 200 then (r.claims.filter apiInsertable).map (fun c => c.url)
    else []

/-- The insertable candidate urls of a Google source run. -/
def googleGood (up : String → Option ApiResponse) (langs : List String) : List String :=
  (langs.map (fun lang => langGood (up lang))).flatten

/-- The insertable candidate urls of an RSS source run. -/
def rssGood (doc : HttpDoc (List RssEntry)) : List String :=
  match doc with
  | .netError => []
  | .response status entries =>
    if status = 200 then ((entries.take 15).filter (fun e => e.ok)).map (fun e => e.link)
    else []

/-- Does fetching this link yield a ClaimReview record (200 response with a
ClaimReview JSON-LD object)? -/
def linkGood (linkUp : String → HttpDoc ArticlePage) (l : String) : Bool :=
  match linkUp l with
  | .response status page =>
    if status = 200 then (findClaimReview page.blocks).isSome else false
  | .netError => false

/-- The insertable candidate urls one seed contributes. -/
def seedGood (seedUp : String → HttpDoc (List String))
    (linkUp : String → HttpDoc ArticlePage) (seed : String) : List String :=
  match seedUp seed with
  | .netError => []
  | .response status hrefs =>
    if status = 200 then (validLinks (collectLinks seed hrefs)).filter (linkGood linkUp)
    else []

/-- The insertable candidate urls of a scraper source run. -/
def scrapeGood (seedUp : String → HttpDoc (List String))
    (linkUp : String → HttpDoc ArticlePage) (seeds : List String) : List String :=
  (seeds.map (seedGood seedUp linkUp)).flatten

/-- The insertable candidate urls of a source under an environment (empty when
the source would not run at all). -/
def goodsOf (env : Env) : Source → List String
  | .google g =>
    if g.enabled && env.apiKey != "" then googleGood env.googleUp g.languages else []
  | .rss r => if r.enabled then rssGood (env.rssUp r.feed_url) else []
  | .scrape s =>
    if s.enabled then scrapeGood env.seedUp env.linkUp s.urls else []

/-- Two sources agree on everything a fetch's storage effect reads (their
static definition and enabled flag; the statistics may differ). -/
def sameShape : Source → Source → Prop
  | .google g, .google g' => g.enabled = g'.enabled ∧ g.languages = g'.languages
  | .rss r, .rss r' =>
    r.name = r'.name ∧ r.feed_url = r'.feed_url ∧ r.enabled = r'.enabled ∧
      r.language = r'.language
  | .scrape s, .scrape s' =>
    s.name = s'.name ∧ s.urls = s'.urls ∧ s.enabled = s'.enabled ∧
      s.language = s'.language
  | _, _ => False

/-- Pointwise key equality and shape agreement of two source tables. -/
def keysShapes (ag ag' : List (String × Source)) : Prop :=
  List.Forall₂ (fun p q => p.1 = q.1 ∧ sameShape p.2 q.2) ag ag'

/-! ### The specification's origin resolution (§4.4)

The spec describes the root-relative case as "resolving root-relative hrefs
against the seed's origin"; these definitions follow those words so they can
be compared with `normHref` above. -/

/-- Split a character list at the first occurrence of `pat`, dropping it. -/
def breakAt (pat : List Char) : List Char → Option (List Char × List Char)
  | [] => if pat.isEmpty then some ([], []) else none
  | c :: rest =>
    if matchAt pat (c :: rest) then some ([], List.drop pat.length (c :: rest))
    else (breakAt pat rest).map (fun p => (c :: p.1, p.2))

/-- The spec's "origin (scheme plus host)" of a URL: scheme, "://", then the
host up to the first slash. -/
def specOrigin (u : String) : String :=
  match breakAt "://".toList u.toList with
  | some (scheme, rest) =>
    String.mk scheme ++ "://" ++ String.mk (rest.takeWhile (fun c => c ≠ '/'))
  | none => u

/-- The spec's resolution of a root-relative href against the seed's origin. -/
def specResolve (seed href : String) : String := specOrigin seed ++ href

/-! ### Concrete inputs used by the closed witness and counterexample
theorems -/

/-- Fresh statistics, as built by `NewsSource.__init__`. -/
def stats0 : Stats := { last_run := none, last_count := 0, total_count := 0 }

/-- An environment in which every network request fails and no API key is
configured. -/
def emptyEnv : Env :=
  { apiKey := "", googleUp := fun _ => none, rssUp := fun _ => HttpDoc.netError,
    seedUp := fun _ => HttpDoc.netError, linkUp := fun _ => HttpDoc.netError }

/-- An enabled Google source in its initial state. -/
def gSrc : GoogleSource := { enabled := true, languages := ["pt"], stats := stats0 }

/-- A disabled Google source. -/
def gOff : GoogleSource := { enabled := false, languages := ["pt"], stats := stats0 }

/-- The Polígrafo RSS source in its initial state (`load_config`,
lines 355-361). -/
def rssS0 : RssSource :=
  { name := "Polígrafo RSS", feed_url := "https://poligrafo.sapo.pt/rss",
    enabled := true, language := "pt", stats := stats0 }

/-- A claim text 501 characters long. -/
def longText : String := String.mk (List.replicate 501 'a')

/-- A well-formed API claim carrying the 501-character text. -/
def cexClaim : ApiClaim :=
  { text := longText, publisher := "P", url := "https://x.example/review-1",
    title := some "T", reviewDate := some (some 7), textualRating := "False" }

/-- A claim-search upstream returning exactly `cexClaim` for every language. -/
def cexUp : String → Option ApiResponse := fun _ => some { status := 200, claims := [cexClaim] }

/-- The first-match-wins contract of one classifier over its own term lists:
any false-term hit forces `Falso`, a true-term hit without a false-term hit
forces `Verdadeiro`, no hit forces `Parcial`. -/
def firstMatchSpec (falseTerms trueTerms : List String) (f : String → Verdict) : Prop :=
  ∀ s : String,
    (falseTerms.any (fun t => strIn t (lowerStr s)) = true → f s = Verdict.Falso) ∧
    (falseTerms.any (fun t => strIn t (lowerStr s)) = false →
      trueTerms.any (fun t => strIn t (lowerStr s)) = true → f s = Verdict.Verdadeiro) ∧
    (falseTerms.any (fun t => strIn t (lowerStr s)) = false →
      trueTerms.any (fun t => strIn t (lowerStr s)) = false → f s = Verdict.Parcial)

/-! ## Theorems -/

/-! ### Generic fold lemmas -/

/-- A property preserved by every step taken from the list is preserved by the
whole fold. -/
theorem foldl_inv_mem {α β : Type _} (P : α → Prop) (f : α → β → α) :
    ∀ (l : List β), (∀ a b, b ∈ l → P a → P (f a b)) → ∀ a, P a → P (l.foldl f a) := by
  intro l
  induction l with
  | nil => intro _ a ha; simpa using ha
  | cons x xs ih =>
    intro h a ha
    simp only [List.foldl_cons]
    exact ih (fun a b hb ha' => h a b (List.mem_cons_of_mem _ hb) ha') _
      (h a x (List.mem_cons_self _ _) ha)

/-- If every step only grows the projected url list, and some step of the
fold puts `u` into it, the fold's result contains `u`. -/
theorem foldl_cover {α β : Type _} (proj : α → List String) (f : α → β → α)
    (mono : ∀ a b u, u ∈ proj a → u ∈ proj (f a b)) :
    ∀ (l : List β) (b : β), b ∈ l → ∀ (u : String),
      (∀ a, u ∈ proj (f a b)) → ∀ a, u ∈ proj (l.foldl f a) := by
  intro l
  induction l with
  | nil => intro b hb; cases hb
  | cons x xs ih =>
    intro b hb u hcov a
    simp only [List.foldl_cons]
    rcases List.mem_cons.mp hb with h | h
    · subst h
      exact foldl_inv_mem (fun a => u ∈ proj a) f xs (fun a c _ => mono a c u) _ (hcov a)
    · exact ih b h u hcov _

/-! ### The existence check -/

/-- Membership in the stored url list is exactly what the
`select ... where url == u` probe reports. -/
theorem mem_urls_iff {st : List News} {u : String} :
    u ∈ urls st ↔ existsByUrl st u = true := by
  simp only [urls, existsByUrl, List.any_eq_true, beq_iff_eq, List.mem_map]

/-- A failed probe means the url is absent. -/
theorem not_mem_of_exists_false {st : List News} {u : String}
    (h : existsByUrl st u = false) : u ∉ urls st := by
  simp [mem_urls_iff, h]

/-- Appending a record whose url failed the probe preserves distinctness of
the stored urls. -/
theorem nodup_insert_guard {st : List News} {n : News}
    (hn : (urls st).Nodup) (h : existsByUrl st n.url = false) :
    (urls (st ++ [n])).Nodup := by
  have hurls : urls (st ++ [n]) = urls st ++ [n.url] := by simp [urls]
  rw [hurls, List.nodup_append]
  refine ⟨hn, List.nodup_singleton _, ?_⟩
  intro u hu hmem
  have : u = n.url := by simpa using hmem
  subst this
  exact not_mem_of_exists_false h hu

/-! ### Distinctness of stored urls is preserved by every operation -/

/-- One Google claim step either leaves (storage, count) untouched or appends
one record carrying the claim's url after a failed existence probe. -/
theorem googleItem_cases (now : Nat) (lang : String) (p : List News × Nat)
    (c : ApiClaim) :
    googleItem now lang p c = p ∨
    ∃ n : News, n.url = c.url ∧ existsByUrl p.1 c.url = false ∧
      googleItem now lang p c = (p.1 ++ [n], p.2 + 1) := by
  unfold googleItem
  split
  · exact Or.inl rfl
  · split
    · exact Or.inl rfl
    · next hex =>
      split
      · exact Or.inl rfl
      · exact Or.inr ⟨_, rfl, by simpa using hex, rfl⟩
      · exact Or.inr ⟨_, rfl, by simpa using hex, rfl⟩

/-- One Google claim step preserves url distinctness. -/
theorem googleItem_nodup (now : Nat) (lang : String) (p : List News × Nat)
    (c : ApiClaim) (h : (urls p.1).Nodup) : (urls (googleItem now lang p c).1).Nodup := by
  rcases googleItem_cases now lang p c with he | ⟨n, hu, hex, he⟩
  · rw [he]; exact h
  · rw [he]
    exact nodup_insert_guard h (hu ▸ hex)

/-- One language's batch preserves url distinctness. -/
theorem fetchLang_nodup (now : Nat) (lang : String) (resp : ApiResponse)
    (st : List News) (h : (urls st).Nodup) : (urls (fetchLang now lang resp st).1).Nodup := by
  unfold fetchLang
  split
  · exact foldl_inv_mem (fun p => (urls p.1).Nodup) (googleItem now lang) resp.claims
      (fun p c _ hp => googleItem_nodup now lang p c hp) (st, 0) h
  · exact h

/-- The per-language step preserves url distinctness. -/
theorem googleLangStep_nodup (now : Nat) (up : String → Option ApiResponse)
    (p : List News × Nat) (lang : String) (h : (urls p.1).Nodup) :
    (urls (googleLangStep now up p lang).1).Nodup := by
  unfold googleLangStep
  split
  · exact h
  · exact fetchLang_nodup now lang _ p.1 h

/-- The Google language loop preserves url distinctness. -/
theorem googleRun_nodup (now : Nat) (up : String → Option ApiResponse)
    (langs : List String) (st : List News) (h : (urls st).Nodup) :
    (urls (googleRun now up langs st).1).Nodup :=
  foldl_inv_mem (fun p => (urls p.1).Nodup) (googleLangStep now up) langs
    (fun p lang _ hp => googleLangStep_nodup now up p lang hp) (st, 0) h

/-- `GoogleFactCheckSource.fetch` preserves url distinctness. -/
theorem googleFetch_nodup (apiKey : String) (now : Nat)
    (up : String → Option ApiResponse) (g : GoogleSource) (st : List News)
    (h : (urls st).Nodup) : (urls (googleFetch apiKey now up g st).2.news).Nodup := by
  unfold googleFetch
  split
  · exact h
  · split
    · exact h
    · exact googleRun_nodup now up g.languages st h

/-- One feed entry step either leaves (storage, count) untouched or appends
one record carrying the entry's link after a failed existence probe. -/
theorem rssEntryStep_cases (now : Nat) (name lang : String) (p : List News × Nat)
    (e : RssEntry) :
    rssEntryStep now name lang p e = p ∨
    ∃ n : News, n.url = e.link ∧ existsByUrl p.1 e.link = false ∧ e.ok = true ∧
      rssEntryStep now name lang p e = (p.1 ++ [n], p.2 + 1) := by
  unfold rssEntryStep
  split
  · exact Or.inl rfl
  · next hok =>
    split
    · exact Or.inl rfl
    · next hex =>
      exact Or.inr ⟨_, rfl, by simpa using hex, by simpa using hok, rfl⟩

/-- One feed entry step preserves url distinctness. -/
theorem rssEntryStep_nodup (now : Nat) (name lang : String) (p : List News × Nat)
    (e : RssEntry) (h : (urls p.1).Nodup) : (urls (rssEntryStep now name lang p e).1).Nodup := by
  rcases rssEntryStep_cases now name lang p e with he | ⟨n, hu, hex, _, he⟩
  · rw [he]; exact h
  · rw [he]
    exact nodup_insert_guard h (hu ▸ hex)

/-- `RSSFeedSource.fetch` preserves url distinctness. -/
theorem rssFetch_nodup (now : Nat) (up : HttpDoc (List RssEntry)) (s : RssSource)
    (st : List News) (h : (urls st).Nodup) : (urls (rssFetch now up s st).2.news).Nodup := by
  unfold rssFetch
  split
  · exact h
  · split
    · exact h
    · split
      · exact h
      · exact foldl_inv_mem (fun p => (urls p.1).Nodup) (rssEntryStep now s.name s.language)
          _ (fun p e _ hp => rssEntryStep_nodup now s.name s.language p e hp) (st, 0) h

/-- Whatever `_parse_article` adds for a page fetched at `url` carries exactly
that url. -/
theorem parseArticle_url {selfName lang : String} {now : Nat} {page : ArticlePage}
    {url : String} {n : News} (h : parseArticle selfName lang now page url = some n) :
    n.url = url := by
  unfold parseArticle at h
  rcases Option.map_eq_some'.mp h with ⟨c, _, rfl⟩
  rfl

/-- One scraped-link step: the link already exists and nothing at all happens,
or it does not and either no record is produced (only the request is logged)
or exactly one record carrying the link as url is appended. -/
theorem scrapeLinkStep_cases (selfName lang : String) (now : Nat)
    (linkUp : String → HttpDoc ArticlePage) (p : List News × Nat × List String)
    (link : String) :
    scrapeLinkStep selfName lang now linkUp p link = p ∨
    (existsByUrl p.1 link = false ∧
      (scrapeLinkStep selfName lang now linkUp p link = (p.1, p.2.1, p.2.2 ++ [link]) ∨
       ∃ n : News, n.url = link ∧ linkGood linkUp link = true ∧
         scrapeLinkStep selfName lang now linkUp p link =
           (p.1 ++ [n], p.2.1 + 1, p.2.2 ++ [link]))) := by
  unfold scrapeLinkStep
  split
  · exact Or.inl rfl
  · next hex =>
    refine Or.inr ⟨by simpa using hex, ?_⟩
    split
    · exact Or.inl rfl
    · next status page heq =>
      split
      · next hst =>
        split
        · next n hn =>
          refine Or.inr ⟨n, parseArticle_url hn, ?_, rfl⟩
          unfold linkGood
          rw [heq]
          dsimp only
          rw [if_pos hst]
          rcases Option.map_eq_some'.mp (by unfold parseArticle at hn; exact hn) with
            ⟨c, hc, _⟩
          rw [hc]
          rfl
        · exact Or.inl rfl
      · exact Or.inl rfl

/-- One scraped-link step preserves url distinctness. -/
theorem scrapeLinkStep_nodup (selfName lang : String) (now : Nat)
    (linkUp : String → HttpDoc ArticlePage) (p : List News × Nat × List String)
    (link : String) (h : (urls p.1).Nodup) :
    (urls (scrapeLinkStep selfName lang now linkUp p link).1).Nodup := by
  rcases scrapeLinkStep_cases selfName lang now linkUp p link with he | ⟨hex, he | ⟨n, hu, _, he⟩⟩
  · rw [he]; exact h
  · rw [he]; exact h
  · rw [he]
    exact nodup_insert_guard h (hu ▸ hex)

/-- One seed step preserves url distinctness. -/
theorem scrapeSeedStep_nodup (selfName lang : String) (now : Nat)
    (seedUp : String → HttpDoc (List String)) (linkUp : String → HttpDoc ArticlePage)
    (p : List News × Nat × List String) (seed : String) (h : (urls p.1).Nodup) :
    (urls (scrapeSeedStep selfName lang now seedUp linkUp p seed).1).Nodup := by
  unfold scrapeSeedStep
  split
  · exact h
  · split
    · exact foldl_inv_mem (fun q => (urls q.1).Nodup)
        (scrapeLinkStep selfName lang now linkUp) _
        (fun q l _ hq => scrapeLinkStep_nodup selfName lang now linkUp q l hq)
        (p.1, p.2.1, p.2.2 ++ [seed]) h
    · exact h

/-- `ClaimReviewScraperSource.fetch` preserves url distinctness. -/
theorem scrapeFetch_nodup (now : Nat) (seedUp : String → HttpDoc (List String))
    (linkUp : String → HttpDoc ArticlePage) (s : ScrapeSource) (st : List News)
    (h : (urls st).Nodup) : (urls (scrapeFetch now seedUp linkUp s st).2.news).Nodup := by
  unfold scrapeFetch
  split
  · exact h
  · exact foldl_inv_mem (fun q => (urls q.1).Nodup)
      (scrapeSeedStep s.name s.language now seedUp linkUp) s.urls
      (fun q seed _ hq => scrapeSeedStep_nodup s.name s.language now seedUp linkUp q seed hq)
      (st, 0, []) h

/-- Every single `fetch` call preserves url distinctness. -/
theorem fetchSource_nodup (env : Env) (now : Nat) (src : Source) (st : List News)
    (h : (urls st).Nodup) : (urls (fetchSource env now src st).2.news).Nodup := by
  cases src with
  | google g => exact googleFetch_nodup env.apiKey now env.googleUp g st h
  | rss r => exact rssFetch_nodup now (env.rssUp r.feed_url) r st h
  | scrape s => exact scrapeFetch_nodup now env.seedUp env.linkUp s st h

/-- A full `update_all` pass preserves url distinctness. -/
theorem runSources_nodup (env : Env) (now : Nat) (crash : String → Bool) :
    ∀ (ag : List (String × Source)) (st : List News), (urls st).Nodup →
      (urls (runSources env now crash ag st).news).Nodup := by
  intro ag
  induction ag with
  | nil => intro st h; exact h
  | cons p rest ih =>
    intro st h
    rcases p with ⟨k, src⟩
    unfold runSources
    split
    · exact ih _ (fetchSource_nodup env now src st h)
    · exact ih _ h

/-- Every pipeline operation preserves url distinctness. -/
theorem applyOp_nodup (p : List (String × Source) × List News) (op : Op)
    (h : (urls p.2).Nodup) : (urls (applyOp p op).2).Nodup := by
  cases op with
  | update env now crash =>
    simp only [applyOp]
    exact runSources_nodup env now crash p.1 p.2 h
  | toggle id b =>
    simp only [applyOp]
    exact h
  | fetchOne id env now =>
    simp only [applyOp]
    split
    · exact h
    · exact fetchSource_nodup env now _ p.2 h

/-- C1: for every sequence of pipeline operations (any interleaving of
`update_all`, `toggle_source` and individual source `fetch` calls run
sequentially against the storage collaborator), no two stored claim records
ever share the same url: every insert is guarded by an existence-by-url
probe, so distinctness of the stored urls is an invariant preserved by every
operation. -/
theorem C1_url_uniqueness_invariant (ops : List Op)
    (ag : List (String × Source)) (st : List News) (h : (urls st).Nodup) :
    (urls (applyOps ops (ag, st)).2).Nodup := by
  unfold applyOps
  exact foldl_inv_mem (fun p => (urls p.2).Nodup) applyOp ops
    (fun p op _ hp => applyOp_nodup p op hp) (ag, st) h

/-- Closed instance of C1: starting from an empty store, a toggle followed by
an `update_all` against a dead network keeps the stored urls distinct. -/
theorem C1_url_uniqueness_witness :
    (urls ([] : List News)).Nodup ∧
    (urls (applyOps [Op.toggle "google_api" false,
        Op.update emptyEnv 0 (fun _ => false)]
        ([("google_api", Source.google gSrc)], [])).2).Nodup :=
  ⟨by simp [urls],
   C1_url_uniqueness_invariant _ _ _ (by simp [urls])⟩

/-- C2 counterexample: the claim's fixed false-term list contains
"enganoso", yet the Google variant's classifier does not map the rating
"enganoso" (which contains no true-term) to `Falso` — its own list
(line 103) lacks that term. -/
theorem C2_single_list_counterexample :
    specFalseTerms.any (fun t => strIn t (lowerStr "enganoso")) = true ∧
    (specTrueTerms.any (fun t => strIn t (lowerStr "enganoso")) = false) ∧
    googleClassify "enganoso" ≠ Verdict.Falso := by
  decide

/-- C2 (amended): each source variant classifies with its own fixed term
lists — Google (falso, false, fake, mentira, incorrect, incorrecto, faux /
verdadeiro, true, correct, correto, vrai, autêntico), RSS (falso, mentira,
fake, incorrecto, enganoso, false / verdadeiro, correto, autêntico, true,
correct) and the scraper (falso, false, fake, incorrect, mentira /
verdadeiro, true, correct, correto) — and for each variant false-terms are
checked before true-terms, no match yields `Parcial`, and the classifier is
a total function of the rating string. -/
theorem C2_per_variant_classifier :
    firstMatchSpec googleFalseTerms googleTrueTerms googleClassify ∧
    firstMatchSpec rssFalseTerms rssTrueTerms rssClassify ∧
    firstMatchSpec scraperFalseTerms scraperTrueTerms scraperClassify := by
  refine ⟨?_, ?_, ?_⟩ <;>
    · intro s
      refine ⟨fun h1 => ?_, fun h1 h2 => ?_, fun h1 h2 => ?_⟩
      · simp [googleClassify, rssClassify, scraperClassify, classifyWith, h1]
      · simp [googleClassify, rssClassify, scraperClassify, classifyWith, h1, h2]
      · simp [googleClassify, rssClassify, scraperClassify, classifyWith, h1, h2]

/-- Closed instance of C2 (amended): the Google classifier at the rating
"falso". -/
theorem C2_per_variant_witness : googleClassify "falso" = Verdict.Falso :=
  (C2_per_variant_classifier.1 "falso").1 (by decide)

/-- The `update_all` loop: the accumulated total is exactly the sum of the
per-source trace, the trace lines up with the source table one entry per
source in order, and a disabled source or one whose `fetch` raised
contributes exactly 0. -/
theorem runSources_trace (env : Env) (now : Nat) (crash : String → Bool) :
    ∀ (ag : List (String × Source)) (st : List News),
      (runSources env now crash ag st).total
          = ((runSources env now crash ag st).trace.map (fun q => q.2)).sum ∧
      List.Forall₂ (fun (p : String × Source) (q : String × Nat) =>
          p.1 = q.1 ∧ ((p.2.enabled = false ∨ crash p.1 = true) → q.2 = 0))
        ag (runSources env now crash ag st).trace := by
  intro ag
  induction ag with
  | nil => intro st; exact ⟨rfl, List.Forall₂.nil⟩
  | cons p rest ih =>
    intro st
    rcases p with ⟨k, src⟩
    simp only [runSources]
    split
    · next hcond =>
      rw [Bool.and_eq_true, Bool.not_eq_true'] at hcond
      constructor
      · simp [(ih _).1]
      · refine List.Forall₂.cons ⟨rfl, fun hdis => ?_⟩ (ih _).2
        rcases hdis with hdis | hdis
        · rw [hcond.1] at hdis; cases hdis
        · rw [hcond.2] at hdis; cases hdis
    · constructor
      · simpa using (ih _).1
      · exact List.Forall₂.cons ⟨rfl, fun _ => rfl⟩ (ih _).2

/-- C3: for every configuration of sources and every behaviour of the
collaborators (including any individual source's fetch raising, modelled by
`crash`), `update_all` returns the sum of the counts of the sources that
completed; a raising source contributes exactly 0 while every other source
still gets its own trace entry (the trace covers the whole table in order).
The total is a `Nat`, hence non-negative, and `update_all` is a total
function — no exception propagates. -/
theorem C3_update_all_error_containment (env : Env) (now : Nat)
    (crash : String → Bool) (ag : List (String × Source)) (st : List News) :
    ((update_all env now crash ag st).1).total
        = (((update_all env now crash ag st).1).trace.map (fun q => q.2)).sum ∧
    List.Forall₂ (fun (p : String × Source) (q : String × Nat) =>
        p.1 = q.1 ∧ ((p.2.enabled = false ∨ crash p.1 = true) → q.2 = 0))
      ag ((update_all env now crash ag st).1).trace := by
  simpa [update_all] using runSources_trace env now crash ag st

/-- Closed instance of C3: one enabled source whose fetch raises yields a
total of 0 with a single zero trace entry. -/
theorem C3_error_containment_witness :
    ((update_all emptyEnv 0 (fun _ => true) [("google_api", Source.google gSrc)] []).1).total
      = (((update_all emptyEnv 0 (fun _ => true)
            [("google_api", Source.google gSrc)] []).1).trace.map (fun q => q.2)).sum :=
  (C3_update_all_error_containment emptyEnv 0 (fun _ => true)
    [("google_api", Source.google gSrc)] []).1

/-! ### Storage growth: no fetch ever removes a stored url -/

/-- A url stays stored when records are appended. -/
theorem mem_urls_append_left {st l : List News} {u : String}
    (h : u ∈ urls st) : u ∈ urls (st ++ l) := by
  simp only [urls, List.map_append]
  exact List.mem_append_left _ h

/-- An appended record's url is stored. -/
theorem mem_urls_append_right {st : List News} {n : News} :
    n.url ∈ urls (st ++ [n]) := by
  simp [urls]

/-- One Google claim step only grows the stored urls. -/
theorem googleItem_mono (now : Nat) (lang : String) (p : List News × Nat)
    (c : ApiClaim) (u : String) (h : u ∈ urls p.1) :
    u ∈ urls (googleItem now lang p c).1 := by
  rcases googleItem_cases now lang p c with he | ⟨n, _, _, he⟩ <;> rw [he]
  · exact h
  · exact mem_urls_append_left h

/-- One language's batch only grows the stored urls. -/
theorem fetchLang_mono (now : Nat) (lang : String) (resp : ApiResponse)
    (st : List News) (u : String) (h : u ∈ urls st) :
    u ∈ urls (fetchLang now lang resp st).1 := by
  unfold fetchLang
  split
  · exact foldl_inv_mem (fun p => u ∈ urls p.1) (googleItem now lang) resp.claims
      (fun p c _ hp => googleItem_mono now lang p c u hp) (st, 0) h
  · exact h

/-- The per-language step only grows the stored urls. -/
theorem googleLangStep_mono (now : Nat) (up : String → Option ApiResponse)
    (p : List News × Nat) (lang : String) (u : String) (h : u ∈ urls p.1) :
    u ∈ urls (googleLangStep now up p lang).1 := by
  unfold googleLangStep
  split
  · exact h
  · exact fetchLang_mono now lang _ p.1 u h

/-- The Google language loop only grows the stored urls. -/
theorem googleRun_mono (now : Nat) (up : String → Option ApiResponse)
    (langs : List String) (st : List News) (u : String) (h : u ∈ urls st) :
    u ∈ urls (googleRun now up langs st).1 :=
  foldl_inv_mem (fun p => u ∈ urls p.1) (googleLangStep now up) langs
    (fun p lang _ hp => googleLangStep_mono now up p lang u hp) (st, 0) h

/-- One feed entry step only grows the stored urls. -/
theorem rssEntryStep_mono (now : Nat) (name lang : String) (p : List News × Nat)
    (e : RssEntry) (u : String) (h : u ∈ urls p.1) :
    u ∈ urls (rssEntryStep now name lang p e).1 := by
  rcases rssEntryStep_cases now name lang p e with he | ⟨n, _, _, _, he⟩ <;> rw [he]
  · exact h
  · exact mem_urls_append_left h

/-- One scraped-link step only grows the stored urls. -/
theorem scrapeLinkStep_mono (selfName lang : String) (now : Nat)
    (linkUp : String → HttpDoc ArticlePage) (p : List News × Nat × List String)
    (link : String) (u : String) (h : u ∈ urls p.1) :
    u ∈ urls (scrapeLinkStep selfName lang now linkUp p link).1 := by
  rcases scrapeLinkStep_cases selfName lang now linkUp p link with
    he | ⟨_, he | ⟨n, _, _, he⟩⟩ <;> rw [he]
  · exact h
  · exact h
  · exact mem_urls_append_left h

/-- One seed step only grows the stored urls. -/
theorem scrapeSeedStep_mono (selfName lang : String) (now : Nat)
    (seedUp : String → HttpDoc (List String)) (linkUp : String → HttpDoc ArticlePage)
    (p : List News × Nat × List String) (seed : String) (u : String)
    (h : u ∈ urls p.1) :
    u ∈ urls (scrapeSeedStep selfName lang now seedUp linkUp p seed).1 := by
  unfold scrapeSeedStep
  split
  · exact h
  · split
    · exact foldl_inv_mem (fun q => u ∈ urls q.1)
        (scrapeLinkStep selfName lang now linkUp) _
        (fun q l _ hq => scrapeLinkStep_mono selfName lang now linkUp q l u hq)
        (p.1, p.2.1, p.2.2 ++ [seed]) h
    · exact h

/-- A single `fetch` call only grows the stored urls. -/
theorem fetchSource_mono (env : Env) (now : Nat) (src : Source) (st : List News)
    (u : String) (h : u ∈ urls st) : u ∈ urls (fetchSource env now src st).2.news := by
  cases src with
  | google g =>
    show u ∈ urls (googleFetch env.apiKey now env.googleUp g st).2.news
    unfold googleFetch
    split
    · exact h
    · split
      · exact h
      · exact googleRun_mono now env.googleUp g.languages st u h
  | rss r =>
    show u ∈ urls (rssFetch now (env.rssUp r.feed_url) r st).2.news
    unfold rssFetch
    split
    · exact h
    · split
      · exact h
      · split
        · exact h
        · exact foldl_inv_mem (fun p => u ∈ urls p.1)
            (rssEntryStep now r.name r.language) _
            (fun p e _ hp => rssEntryStep_mono now r.name r.language p e u hp) (st, 0) h
  | scrape s =>
    show u ∈ urls (scrapeFetch now env.seedUp env.linkUp s st).2.news
    unfold scrapeFetch
    split
    · exact h
    · exact foldl_inv_mem (fun q => u ∈ urls q.1)
        (scrapeSeedStep s.name s.language now env.seedUp env.linkUp) s.urls
        (fun q seed _ hq => scrapeSeedStep_mono s.name s.language now env.seedUp env.linkUp q seed u hq)
        (st, 0, []) h

/-- A full `update_all` pass only grows the stored urls. -/
theorem runSources_mono (env : Env) (now : Nat) (crash : String → Bool) :
    ∀ (ag : List (String × Source)) (st : List News) (u : String),
      u ∈ urls st → u ∈ urls (runSources env now crash ag st).news := by
  intro ag
  induction ag with
  | nil => intro st u h; exact h
  | cons p rest ih =>
    intro st u h
    rcases p with ⟨k, src⟩
    simp only [runSources]
    split
    · exact ih _ u (fetchSource_mono env now src st u h)
    · exact ih _ u h

/-! ### Coverage: after a fetch, every insertable candidate url is stored -/

/-- After its step runs, an insertable Google claim's url is stored (it was
either already there or has just been appended). -/
theorem googleItem_cover (now : Nat) (lang : String) (c : ApiClaim)
    (hc : apiInsertable c = true) (p : List News × Nat) :
    c.url ∈ urls (googleItem now lang p c).1 := by
  unfold apiInsertable at hc
  rw [Bool.and_eq_true, bne_iff_ne, bne_iff_ne] at hc
  unfold googleItem
  split
  · next hurl => exact absurd hurl hc.1
  · split
    · next hex => exact mem_urls_iff.mpr hex
    · split
      · next heq => exact absurd heq hc.2
      · exact mem_urls_append_right
      · exact mem_urls_append_right

/-- After a 200 batch runs, every insertable claim's url is stored. -/
theorem fetchLang_cover (now : Nat) (lang : String) (resp : ApiResponse)
    (hst : resp.status = 200) (c : ApiClaim) (hmem : c ∈ resp.claims)
    (hc : apiInsertable c = true) (st : List News) :
    c.url ∈ urls (fetchLang now lang resp st).1 := by
  unfold fetchLang
  split
  · exact foldl_cover (fun p => urls p.1) (googleItem now lang)
      (fun p b u hu => googleItem_mono now lang p b u hu) resp.claims c hmem c.url
      (fun p => googleItem_cover now lang c hc p) (st, 0)
  · next hne => exact absurd hst hne

/-- After the per-language step runs, every url of that language's insertable
candidates is stored. -/
theorem googleLangStep_cover (now : Nat) (up : String → Option ApiResponse)
    (lang : String) (u : String) (h : u ∈ langGood (up lang)) (p : List News × Nat) :
    u ∈ urls (googleLangStep now up p lang).1 := by
  unfold langGood at h
  unfold googleLangStep
  cases hres : up lang with
  | none => rw [hres] at h; simp at h
  | some r =>
    rw [hres] at h
    simp only at h
    by_cases hst : r.status = 200
    · rw [if_pos hst] at h
      simp only [List.mem_map, List.mem_filter] at h
      rcases h with ⟨c, ⟨hcm, hci⟩, rfl⟩
      exact fetchLang_cover now lang r hst c hcm hci p.1
    · rw [if_neg hst] at h
      simp at h

/-- After the Google language loop runs, every insertable candidate url is
stored. -/
theorem googleRun_cover (now : Nat) (up : String → Option ApiResponse)
    (langs : List String) (u : String) (h : u ∈ googleGood up langs)
    (st : List News) : u ∈ urls (googleRun now up langs st).1 := by
  unfold googleGood at h
  rw [List.mem_flatten] at h
  rcases h with ⟨l, hl, hu⟩
  rw [List.mem_map] at hl
  rcases hl with ⟨lang, hlang, rfl⟩
  exact foldl_cover (fun p => urls p.1) (googleLangStep now up)
    (fun p b v hv => googleLangStep_mono now up p b v hv) langs lang hlang u
    (fun p => googleLangStep_cover now up lang u hu p) (st, 0)

/-- After its step runs, a well-formed feed entry's link is stored. -/
theorem rssEntryStep_cover (now : Nat) (name lang : String) (e : RssEntry)
    (he : e.ok = true) (p : List News × Nat) :
    e.link ∈ urls (rssEntryStep now name lang p e).1 := by
  unfold rssEntryStep
  split
  · next hok => rw [he] at hok; cases hok
  · split
    · next hex => exact mem_urls_iff.mpr hex
    · exact mem_urls_append_right

/-- After its step runs, a link whose fetch yields a ClaimReview record is
stored. -/
theorem scrapeLinkStep_cover (selfName lang : String) (now : Nat)
    (linkUp : String → HttpDoc ArticlePage) (link : String)
    (hg : linkGood linkUp link = true) (p : List News × Nat × List String) :
    link ∈ urls (scrapeLinkStep selfName lang now linkUp p link).1 := by
  unfold linkGood at hg
  unfold scrapeLinkStep
  split
  · next hex => exact mem_urls_iff.mpr hex
  · cases hl : linkUp link with
    | netError => rw [hl] at hg; cases hg
    | response status page =>
      rw [hl] at hg
      simp only at hg
      dsimp only
      by_cases hst : status = 200
      · subst hst
        rw [if_pos rfl] at hg
        rw [if_pos rfl]
        rcases Option.isSome_iff_exists.mp hg with ⟨c, hc⟩
        have hp : parseArticle selfName lang now page link =
            some (buildFromCR selfName lang now page.pageTitle link c) := by
          unfold parseArticle
          rw [hc]
          rfl
        rw [hp]
        have hurl : (buildFromCR selfName lang now page.pageTitle link c).url = link := rfl
        exact hurl ▸ mem_urls_append_right
      · rw [if_neg hst] at hg; cases hg

/-- After a seed's processing, every url of that seed's insertable candidate
links is stored. -/
theorem scrapeSeedStep_cover (selfName lang : String) (now : Nat)
    (seedUp : String → HttpDoc (List String)) (linkUp : String → HttpDoc ArticlePage)
    (seed : String) (u : String) (h : u ∈ seedGood seedUp linkUp seed)
    (p : List News × Nat × List String) :
    u ∈ urls (scrapeSeedStep selfName lang now seedUp linkUp p seed).1 := by
  unfold seedGood at h
  unfold scrapeSeedStep
  cases hs : seedUp seed with
  | netError => rw [hs] at h; simp at h
  | response status hrefs =>
    rw [hs] at h
    simp only at h
    dsimp only
    by_cases hst : status = 200
    · subst hst
      rw [if_pos rfl] at h
      rw [if_pos rfl]
      rw [List.mem_filter] at h
      exact foldl_cover (fun q => urls q.1) (scrapeLinkStep selfName lang now linkUp)
        (fun q b v hv => scrapeLinkStep_mono selfName lang now linkUp q b v hv)
        (validLinks (collectLinks seed hrefs)) u h.1 u
        (fun q => scrapeLinkStep_cover selfName lang now linkUp u h.2 q)
        (p.1, p.2.1, p.2.2 ++ [seed])
    · rw [if_neg hst] at h; cases h

/-- After a single `fetch` call, every url of the source's insertable
candidates is stored. -/
theorem fetchSource_cover (env : Env) (now : Nat) (src : Source) (st : List News)
    (u : String) (h : u ∈ goodsOf env src) :
    u ∈ urls (fetchSource env now src st).2.news := by
  cases src with
  | google g =>
    unfold goodsOf at h
    dsimp only at h
    show u ∈ urls (googleFetch env.apiKey now env.googleUp g st).2.news
    unfold googleFetch
    split
    · next hdis =>
      have hd : g.enabled = false := by revert hdis; cases g.enabled <;> simp
      rw [hd] at h
      simp at h
    · next hen =>
      have he : g.enabled = true := by revert hen; cases g.enabled <;> simp
      split
      · next hkey =>
        rw [hkey] at h
        simp at h
      · next hkey =>
        have hcond : (g.enabled && env.apiKey != "") = true := by
          rw [Bool.and_eq_true, bne_iff_ne]
          exact ⟨he, hkey⟩
        rw [if_pos hcond] at h
        exact googleRun_cover now env.googleUp g.languages u h st
  | rss r =>
    unfold goodsOf at h
    dsimp only at h
    show u ∈ urls (rssFetch now (env.rssUp r.feed_url) r st).2.news
    unfold rssFetch
    split
    · next hdis =>
      have hd : r.enabled = false := by revert hdis; cases r.enabled <;> simp
      rw [hd] at h
      simp at h
    · next hen =>
      have he : r.enabled = true := by revert hen; cases r.enabled <;> simp
      rw [if_pos he] at h
      unfold rssGood at h
      cases hdoc : env.rssUp r.feed_url with
      | netError => rw [hdoc] at h; simp at h
      | response status entries =>
        rw [hdoc] at h
        simp only at h
        dsimp only
        by_cases hst : status = 200
        · subst hst
          rw [if_pos rfl] at h
          rw [if_neg (by simp)]
          simp only [List.mem_map, List.mem_filter] at h
          rcases h with ⟨e, ⟨hem, hok⟩, rfl⟩
          exact foldl_cover (fun p => urls p.1) (rssEntryStep now r.name r.language)
            (fun p b v hv => rssEntryStep_mono now r.name r.language p b v hv)
            (entries.take 15) e hem e.link
            (fun p => rssEntryStep_cover now r.name r.language e hok p) (st, 0)
        · rw [if_neg hst] at h; cases h
  | scrape s =>
    unfold goodsOf at h
    dsimp only at h
    show u ∈ urls (scrapeFetch now env.seedUp env.linkUp s st).2.news
    unfold scrapeFetch
    split
    · next hdis =>
      have hd : s.enabled = false := by revert hdis; cases s.enabled <;> simp
      rw [hd] at h
      simp at h
    · next hen =>
      have he : s.enabled = true := by revert hen; cases s.enabled <;> simp
      rw [if_pos he] at h
      unfold scrapeGood at h
      rw [List.mem_flatten] at h
      rcases h with ⟨l, hl, hu⟩
      rw [List.mem_map] at hl
      rcases hl with ⟨seed, hseed, rfl⟩
      exact foldl_cover (fun q => urls q.1)
        (scrapeSeedStep s.name s.language now env.seedUp env.linkUp)
        (fun q b v hv => scrapeSeedStep_mono s.name s.language now env.seedUp env.linkUp q b v hv)
        s.urls seed hseed u
        (fun q => scrapeSeedStep_cover s.name s.language now env.seedUp env.linkUp seed u hu q)
        (st, 0, [])

/-! ### Second-run lemmas: a fetch whose insertable candidates are all
already stored inserts nothing and counts zero -/

/-- A Google claim step is the identity when the claim's url (if insertable)
is already stored. -/
theorem googleItem_zero (now : Nat) (lang : String) (c : ApiClaim)
    (st : List News) (k : Nat) (h : apiInsertable c = true → c.url ∈ urls st) :
    googleItem now lang (st, k) c = (st, k) := by
  unfold googleItem
  split
  · rfl
  · next hurl =>
    split
    · rfl
    · next hex =>
      split
      · rfl
      · next d heq =>
        exfalso
        apply hex
        apply mem_urls_iff.mp
        apply h
        unfold apiInsertable
        rw [Bool.and_eq_true, bne_iff_ne, bne_iff_ne]
        exact ⟨hurl, by rw [heq]; simp⟩
      · next heq =>
        exfalso
        apply hex
        apply mem_urls_iff.mp
        apply h
        unfold apiInsertable
        rw [Bool.and_eq_true, bne_iff_ne, bne_iff_ne]
        exact ⟨hurl, by rw [heq]; simp⟩

/-- A language batch whose insertable claims are all stored adds nothing. -/
theorem fetchLang_zero (now : Nat) (lang : String) (resp : ApiResponse)
    (st : List News)
    (h : ∀ c ∈ resp.claims, apiInsertable c = true → c.url ∈ urls st) :
    fetchLang now lang resp st = (st, 0) := by
  unfold fetchLang
  split
  · exact foldl_inv_mem (fun p => p = (st, 0)) (googleItem now lang) resp.claims
      (fun p c hc hp => by rw [hp]; exact googleItem_zero now lang c st 0 (h c hc))
      (st, 0) rfl
  · rfl

/-- A language step whose insertable candidates are all stored is the
identity on (storage, count). -/
theorem googleLangStep_zero (now : Nat) (up : String → Option ApiResponse)
    (lang : String) (st : List News) (k : Nat)
    (h : ∀ u ∈ langGood (up lang), u ∈ urls st) :
    googleLangStep now up (st, k) lang = (st, k) := by
  unfold googleLangStep
  cases hres : up lang with
  | none => rfl
  | some r =>
    dsimp only
    have hq : fetchLang now lang r st = (st, 0) := by
      by_cases hst : r.status = 200
      · apply fetchLang_zero
        intro c hc hin
        apply h
        unfold langGood
        rw [hres]
        dsimp only
        rw [if_pos hst]
        exact List.mem_map.mpr ⟨c, List.mem_filter.mpr ⟨hc, hin⟩, rfl⟩
      · unfold fetchLang
        rw [if_neg hst]
    rw [hq]
    simp

/-- A Google run whose insertable candidates are all stored returns the
storage unchanged with count 0. -/
theorem googleRun_zero (now : Nat) (up : String → Option ApiResponse)
    (langs : List String) (st : List News)
    (h : ∀ u ∈ googleGood up langs, u ∈ urls st) :
    googleRun now up langs st = (st, 0) := by
  unfold googleRun
  exact foldl_inv_mem (fun p => p = (st, 0)) (googleLangStep now up) langs
    (fun p lang hl hp => by
      rw [hp]
      refine googleLangStep_zero now up lang st 0 (fun u hu => h u ?_)
      unfold googleGood
      rw [List.mem_flatten]
      exact ⟨langGood (up lang), List.mem_map.mpr ⟨lang, hl, rfl⟩, hu⟩)
    (st, 0) rfl

/-- A feed entry step is the identity when the entry's link (if the entry is
well-formed) is already stored. -/
theorem rssEntryStep_zero (now : Nat) (name lang : String) (e : RssEntry)
    (st : List News) (k : Nat) (h : e.ok = true → e.link ∈ urls st) :
    rssEntryStep now name lang (st, k) e = (st, k) := by
  unfold rssEntryStep
  split
  · rfl
  · next hok =>
    split
    · rfl
    · next hex =>
      exfalso
      apply hex
      apply mem_urls_iff.mp
      apply h
      revert hok
      cases e.ok <;> simp

/-- A scraped-link step keeps (storage, count) fixed when the link, if it
would yield a record, is already stored. -/
theorem scrapeLinkStep_keeps (selfName lang : String) (now : Nat)
    (linkUp : String → HttpDoc ArticlePage) (st₀ : List News) (k₀ : Nat)
    (link : String) (h : linkGood linkUp link = true → link ∈ urls st₀)
    (p : List News × Nat × List String) (hp : p.1 = st₀ ∧ p.2.1 = k₀) :
    (scrapeLinkStep selfName lang now linkUp p link).1 = st₀ ∧
    (scrapeLinkStep selfName lang now linkUp p link).2.1 = k₀ := by
  obtain ⟨h1, h2⟩ := hp
  rcases scrapeLinkStep_cases selfName lang now linkUp p link with
    he | ⟨hex, he | ⟨n, _, hg, he⟩⟩
  · rw [he]; exact ⟨h1, h2⟩
  · rw [he]; exact ⟨h1, h2⟩
  · exfalso
    have := h hg
    rw [← h1] at this
    rw [mem_urls_iff] at this
    rw [this] at hex
    cases hex

/-- A seed step keeps (storage, count) fixed when the seed's insertable
candidates are all stored. -/
theorem scrapeSeedStep_keeps (selfName lang : String) (now : Nat)
    (seedUp : String → HttpDoc (List String)) (linkUp : String → HttpDoc ArticlePage)
    (st₀ : List News) (k₀ : Nat) (seed : String)
    (h : ∀ u ∈ seedGood seedUp linkUp seed, u ∈ urls st₀)
    (p : List News × Nat × List String) (hp : p.1 = st₀ ∧ p.2.1 = k₀) :
    (scrapeSeedStep selfName lang now seedUp linkUp p seed).1 = st₀ ∧
    (scrapeSeedStep selfName lang now seedUp linkUp p seed).2.1 = k₀ := by
  obtain ⟨h1, h2⟩ := hp
  unfold scrapeSeedStep
  cases hs : seedUp seed with
  | netError => exact ⟨h1, h2⟩
  | response status hrefs =>
    dsimp only
    by_cases hst : status = 200
    · subst hst
      rw [if_pos rfl]
      refine foldl_inv_mem (fun q => q.1 = st₀ ∧ q.2.1 = k₀)
        (scrapeLinkStep selfName lang now linkUp) (validLinks (collectLinks seed hrefs))
        (fun q link hlink hq =>
          scrapeLinkStep_keeps selfName lang now linkUp st₀ k₀ link
            (fun hg => h link ?_) q hq)
        (p.1, p.2.1, p.2.2 ++ [seed]) ⟨h1, h2⟩
      unfold seedGood
      rw [hs]
      dsimp only
      rw [if_pos rfl]
      exact List.mem_filter.mpr ⟨hlink, hg⟩
    · rw [if_neg hst]
      exact ⟨h1, h2⟩

/-- A fetch whose insertable candidates are all already stored leaves the
storage unchanged and returns 0. -/
theorem fetchSource_zero (env : Env) (now : Nat) (src : Source) (st : List News)
    (h : ∀ u ∈ goodsOf env src, u ∈ urls st) :
    (fetchSource env now src st).2.news = st ∧ (fetchSource env now src st).2.cnt = 0 := by
  cases src with
  | google g =>
    show (googleFetch env.apiKey now env.googleUp g st).2.news = st ∧
      (googleFetch env.apiKey now env.googleUp g st).2.cnt = 0
    unfold googleFetch
    split
    · exact ⟨rfl, rfl⟩
    · next hen =>
      have he : g.enabled = true := by revert hen; cases g.enabled <;> simp
      split
      · exact ⟨rfl, rfl⟩
      · next hkey =>
        have hrun : googleRun now env.googleUp g.languages st = (st, 0) := by
          apply googleRun_zero
          intro u hu
          apply h
          unfold goodsOf
          dsimp only
          rw [if_pos (by rw [Bool.and_eq_true, bne_iff_ne]; exact ⟨he, hkey⟩)]
          exact hu
        simp [hrun]
  | rss r =>
    show (rssFetch now (env.rssUp r.feed_url) r st).2.news = st ∧
      (rssFetch now (env.rssUp r.feed_url) r st).2.cnt = 0
    unfold rssFetch
    split
    · exact ⟨rfl, rfl⟩
    · next hen =>
      have he : r.enabled = true := by revert hen; cases r.enabled <;> simp
      cases hdoc : env.rssUp r.feed_url with
      | netError => exact ⟨rfl, rfl⟩
      | response status entries =>
        dsimp only
        by_cases hst : status = 200
        · subst hst
          rw [if_neg (by simp)]
          have hfold : List.foldl (rssEntryStep now r.name r.language) (st, 0)
              (entries.take 15) = (st, 0) := by
            refine foldl_inv_mem (fun p => p = (st, 0))
              (rssEntryStep now r.name r.language) (entries.take 15)
              (fun p e hemem hp => ?_) (st, 0) rfl
            rw [hp]
            refine rssEntryStep_zero now r.name r.language e st 0 (fun hok => h e.link ?_)
            unfold goodsOf
            dsimp only
            rw [if_pos he]
            unfold rssGood
            rw [hdoc]
            dsimp only
            rw [if_pos rfl]
            exact List.mem_map.mpr ⟨e, List.mem_filter.mpr ⟨hemem, hok⟩, rfl⟩
          simp [hfold]
        · rw [if_pos hst]
          exact ⟨rfl, rfl⟩
  | scrape s =>
    show (scrapeFetch now env.seedUp env.linkUp s st).2.news = st ∧
      (scrapeFetch now env.seedUp env.linkUp s st).2.cnt = 0
    unfold scrapeFetch
    split
    · exact ⟨rfl, rfl⟩
    · next hen =>
      have he : s.enabled = true := by revert hen; cases s.enabled <;> simp
      have hfold : (List.foldl (scrapeSeedStep s.name s.language now env.seedUp env.linkUp)
          (st, 0, []) s.urls).1 = st ∧
          (List.foldl (scrapeSeedStep s.name s.language now env.seedUp env.linkUp)
          (st, 0, []) s.urls).2.1 = 0 := by
        refine foldl_inv_mem (fun q => q.1 = st ∧ q.2.1 = 0)
          (scrapeSeedStep s.name s.language now env.seedUp env.linkUp) s.urls
          (fun q seed hseed hq => ?_) (st, 0, []) ⟨rfl, rfl⟩
        refine scrapeSeedStep_keeps s.name s.language now env.seedUp env.linkUp st 0 seed
          (fun u hu => h u ?_) q hq
        unfold goodsOf
        dsimp only
        rw [if_pos he]
        unfold scrapeGood
        rw [List.mem_flatten]
        exact ⟨seedGood env.seedUp env.linkUp seed,
          List.mem_map.mpr ⟨seed, hseed, rfl⟩, hu⟩
      exact ⟨hfold.1, hfold.2⟩

/-! ### Shape preservation: a run only changes statistics -/

/-- Shape agreement is reflexive. -/
theorem sameShape_refl (src : Source) : sameShape src src := by
  cases src <;> simp [sameShape]

/-- Shape agreement fixes the enabled flag. -/
theorem sameShape_enabled {s s' : Source} (h : sameShape s s') :
    s'.enabled = s.enabled := by
  cases s with
  | google g =>
    cases s' with
    | google g' => exact h.1.symm
    | rss r' => cases h
    | scrape s' => cases h
  | rss r =>
    cases s' with
    | google g' => cases h
    | rss r' => exact h.2.2.1.symm
    | scrape s' => cases h
  | scrape s =>
    cases s' with
    | google g' => cases h
    | rss r' => cases h
    | scrape s' => exact h.2.2.1.symm

/-- Shape agreement fixes the insertable candidate set. -/
theorem goodsOf_congr (env : Env) {s s' : Source} (h : sameShape s s') :
    goodsOf env s' = goodsOf env s := by
  cases s with
  | google g =>
    cases s' with
    | google g' =>
      obtain ⟨h1, h2⟩ := h
      simp [goodsOf, ← h1, ← h2]
    | rss r' => cases h
    | scrape s' => cases h
  | rss r =>
    cases s' with
    | google g' => cases h
    | rss r' =>
      obtain ⟨_, h2, h3, _⟩ := h
      simp [goodsOf, ← h2, ← h3]
    | scrape s' => cases h
  | scrape s =>
    cases s' with
    | google g' => cases h
    | rss r' => cases h
    | scrape s' =>
      obtain ⟨_, h2, h3, _⟩ := h
      simp [goodsOf, ← h2, ← h3]

/-- A fetch never changes a source's shape (it only touches the stats). -/
theorem fetchSource_shape (env : Env) (now : Nat) (src : Source) (st : List News) :
    sameShape src (fetchSource env now src st).1 := by
  cases src with
  | google g =>
    show sameShape (Source.google g)
      (Source.google (googleFetch env.apiKey now env.googleUp g st).1)
    unfold googleFetch
    split
    · exact sameShape_refl _
    · split
      · exact sameShape_refl _
      · exact ⟨rfl, rfl⟩
  | rss r =>
    show sameShape (Source.rss r)
      (Source.rss (rssFetch now (env.rssUp r.feed_url) r st).1)
    unfold rssFetch
    split
    · exact sameShape_refl _
    · split
      · exact ⟨rfl, rfl, rfl, rfl⟩
      · split
        · exact sameShape_refl _
        · exact ⟨rfl, rfl, rfl, rfl⟩
  | scrape s =>
    show sameShape (Source.scrape s)
      (Source.scrape (scrapeFetch now env.seedUp env.linkUp s st).1)
    unfold scrapeFetch
    split
    · exact sameShape_refl _
    · exact ⟨rfl, rfl, rfl, rfl⟩

/-- A full pass keeps every source's key and shape, entry by entry. -/
theorem runSources_shapes (env : Env) (now : Nat) (crash : String → Bool) :
    ∀ (ag : List (String × Source)) (st : List News),
      keysShapes ag (runSources env now crash ag st).sources := by
  intro ag
  induction ag with
  | nil => intro st; exact List.Forall₂.nil
  | cons q rest ih =>
    intro st
    rcases q with ⟨k, src⟩
    simp only [runSources]
    split
    · exact List.Forall₂.cons ⟨rfl, fetchSource_shape env now src st⟩ (ih _)
    · exact List.Forall₂.cons ⟨rfl, sameShape_refl src⟩ (ih _)

/-- After a full pass, every url of the insertable candidates of each
enabled, non-crashing source is stored. -/
theorem runSources_covers (env : Env) (now : Nat) (crash : String → Bool) :
    ∀ (ag : List (String × Source)) (st : List News) (p : String × Source),
      p ∈ ag → p.2.enabled = true → crash p.1 = false →
      ∀ u ∈ goodsOf env p.2, u ∈ urls (runSources env now crash ag st).news := by
  intro ag
  induction ag with
  | nil => intro st p hp; cases hp
  | cons q rest ih =>
    intro st p hp hen hcr u hu
    rcases q with ⟨k, src⟩
    simp only [runSources]
    rcases List.mem_cons.mp hp with rfl | hmem
    · have hcond : (src.enabled && !crash k) = true := by
        rw [Bool.and_eq_true, Bool.not_eq_true']
        exact ⟨hen, hcr⟩
      rw [if_pos hcond]
      exact runSources_mono env now crash rest _ u (fetchSource_cover env now src st u hu)
    · split
      · exact ih _ p hmem hen hcr u hu
      · exact ih _ p hmem hen hcr u hu

/-- A full pass over sources whose insertable candidates are all already
stored changes nothing and totals 0. -/
theorem runSources_zero (env : Env) (now : Nat) (crash : String → Bool) :
    ∀ (ag AG : List (String × Source)) (st : List News),
      keysShapes ag AG →
      (∀ p ∈ ag, p.2.enabled = true → crash p.1 = false →
        ∀ u ∈ goodsOf env p.2, u ∈ urls st) →
      (runSources env now crash AG st).news = st ∧
      (runSources env now crash AG st).total = 0 := by
  intro ag
  induction ag with
  | nil =>
    intro AG st hks _
    cases hks
    exact ⟨rfl, rfl⟩
  | cons q rest ih =>
    intro AG st hks h
    rcases q with ⟨k, src⟩
    cases hks with
    | cons hq hrest =>
      rename_i b l'
      obtain ⟨hk, hsh⟩ := hq
      rcases b with ⟨k', src'⟩
      simp only [runSources]
      by_cases hcond : (src'.enabled && !crash k') = true
      · rw [if_pos hcond]
        have hand := hcond
        rw [Bool.and_eq_true] at hand
        have hen' : src'.enabled = true := hand.1
        have hcr' : crash k' = false := by
          have h2 := hand.2
          rwa [Bool.not_eq_true'] at h2
        have hen : src.enabled = true := by
          rw [← sameShape_enabled hsh]; exact hen'
        have hgoods : ∀ u ∈ goodsOf env src', u ∈ urls st := by
          intro u hu
          rw [goodsOf_congr env hsh] at hu
          exact h (k, src) (List.mem_cons_self _ _) hen (by rw [hk]; exact hcr') u hu
        have hz := fetchSource_zero env now src' st hgoods
        obtain ⟨ihn, iht⟩ := ih l' st hrest (fun p hp => h p (List.mem_cons_of_mem _ hp))
        constructor
        · show (runSources env now crash l' (fetchSource env now src' st).2.news).news = st
          rw [hz.1]; exact ihn
        · show (fetchSource env now src' st).2.cnt +
            (runSources env now crash l' (fetchSource env now src' st).2.news).total = 0
          rw [hz.1, hz.2, iht]
      · rw [if_neg hcond]
        exact ih l' st hrest (fun p hp => h p (List.mem_cons_of_mem _ hp))

/-- C4: idempotence of `update_all`.  For every storage state and every fixed
upstream content (the same environment of API responses, feed entries and
pages on both runs, any crash pattern, any pair of run instants), running
`update_all` twice makes the second invocation return 0 and append no
record. -/
theorem C4_update_all_idempotent (env : Env) (now₁ now₂ : Nat)
    (crash : String → Bool) (ag : List (String × Source)) (st : List News) :
    ((update_all env now₂ crash ((update_all env now₁ crash ag st).1).sources
        ((update_all env now₁ crash ag st).1).news).1).total = 0 ∧
    ((update_all env now₂ crash ((update_all env now₁ crash ag st).1).sources
        ((update_all env now₁ crash ag st).1).news).1).news
      = ((update_all env now₁ crash ag st).1).news := by
  have hz := runSources_zero env now₂ crash ag
    (runSources env now₁ crash ag st).sources
    (runSources env now₁ crash ag st).news
    (runSources_shapes env now₁ crash ag st)
    (fun p hp hen hcr u hu => runSources_covers env now₁ crash ag st p hp hen hcr u hu)
  simp only [update_all]
  exact ⟨hz.2, hz.1⟩

/-! ### Disabled sources, unknown toggles, missing API key -/

/-- `Source.setEnabled` sets exactly the enabled flag. -/
theorem setEnabled_enabled (src : Source) (b : Bool) :
    (src.setEnabled b).enabled = b := by
  cases src <;> rfl

/-- After `toggle_source ag id false`, every table entry under that id is
disabled. -/
theorem toggle_disables (ag : List (String × Source)) (id : String) :
    ∀ p ∈ (toggle_source ag id false).1, p.1 = id → p.2.enabled = false := by
  unfold toggle_source
  split
  · intro p hp hid
    rcases List.mem_map.mp hp with ⟨q, hq, he⟩
    by_cases hqi : q.1 == id
    · rw [if_pos hqi] at he
      rw [← he]
      exact setEnabled_enabled q.2 false
    · rw [if_neg hqi] at he
      rw [← he] at hid
      exact absurd hid (by simpa using hqi)
  · next hany =>
    intro p hp hid
    exfalso
    apply hany
    rw [List.any_eq_true]
    exact ⟨p, hp, by simpa using hid⟩

/-- In a full pass over a table whose entries under `id` are all disabled,
every trace entry under `id` records 0. -/
theorem runSources_trace_disabled (env : Env) (now : Nat) (crash : String → Bool)
    (id : String) :
    ∀ (ag : List (String × Source)) (st : List News),
      (∀ p ∈ ag, p.1 = id → p.2.enabled = false) →
      ∀ q ∈ (runSources env now crash ag st).trace, q.1 = id → q.2 = 0 := by
  intro ag
  induction ag with
  | nil => intro st _ q hq; cases hq
  | cons pr rest ih =>
    intro st h q hq hqid
    rcases pr with ⟨k, src⟩
    simp only [runSources] at hq
    split at hq
    · next hcond =>
      rcases List.mem_cons.mp hq with rfl | hmem
      · exfalso
        have hk : k = id := hqid
        have hdis : src.enabled = false := h (k, src) (List.mem_cons_self _ _) hk
        rw [Bool.and_eq_true] at hcond
        rw [hdis] at hcond
        exact absurd hcond.1 (by simp)
      · exact ih _ (fun p hp => h p (List.mem_cons_of_mem _ hp)) q hmem hqid
    · rcases List.mem_cons.mp hq with rfl | hmem
      · rfl
      · exact ih _ (fun p hp => h p (List.mem_cons_of_mem _ hp)) q hmem hqid

/-- C5: a disabled source's `fetch` returns 0, issues no network request,
appends no record and leaves the source state untouched; consequently
`toggle_source id false` followed by `update_all` yields a recorded
contribution of exactly 0 for that source id, regardless of what the
upstream would have returned. -/
theorem C5_disabled_source_noop :
    (∀ (env : Env) (now : Nat) (src : Source) (st : List News),
      src.enabled = false →
      fetchSource env now src st = (src, ⟨st, 0, []⟩)) ∧
    (∀ (env : Env) (now : Nat) (crash : String → Bool)
        (ag : List (String × Source)) (id : String) (st : List News),
      ∀ q ∈ ((update_all env now crash (toggle_source ag id false).1 st).1).trace,
        q.1 = id → q.2 = 0) := by
  constructor
  · intro env now src st h
    cases src with
    | google g =>
      have h' : g.enabled = false := h
      simp [fetchSource, googleFetch, h']
    | rss r =>
      have h' : r.enabled = false := h
      simp [fetchSource, rssFetch, h']
    | scrape s =>
      have h' : s.enabled = false := h
      simp [fetchSource, scrapeFetch, h']
  · intro env now crash ag id st q hq hid
    exact runSources_trace_disabled env now crash id (toggle_source ag id false).1 st
      (toggle_disables ag id) q hq hid

/-- Closed instance of C5: a disabled Google source's fetch is a no-op. -/
theorem C5_disabled_source_witness :
    (Source.google gOff).enabled = false ∧
    fetchSource emptyEnv 0 (Source.google gOff) [] =
      (Source.google gOff, ⟨[], 0, []⟩) :=
  ⟨rfl, C5_disabled_source_noop.1 emptyEnv 0 (Source.google gOff) [] rfl⟩

/-- C9: toggling an id that is not in the source table returns `false` and
changes nothing — the table (hence every enabled flag, language list and
stats) is returned as it was and the configuration document is not
written. -/
theorem C9_toggle_unknown_id (ag : List (String × Source)) (id : String)
    (b : Bool) (h : ∀ p ∈ ag, p.1 ≠ id) :
    toggle_source ag id b = (ag, false, 0) := by
  unfold toggle_source
  rw [if_neg ?_]
  simp only [List.any_eq_true, beq_iff_eq]
  rintro ⟨p, hp, he⟩
  exact h p hp he

/-- Closed instance of C9: toggling a missing id on a one-source table. -/
theorem C9_toggle_unknown_witness :
    (∀ p ∈ [("google_api", Source.google gSrc)], p.1 ≠ "rss_feed") ∧
    toggle_source [("google_api", Source.google gSrc)] "rss_feed" true =
      ([("google_api", Source.google gSrc)], false, 0) :=
  ⟨by decide, C9_toggle_unknown_id _ _ _ (by decide)⟩

/-- C10: with no claim-search API key configured (the `settings` default
`""`), an enabled Google source's `fetch` returns 0 without issuing any
network request, appending any record, or touching its run statistics. -/
theorem C10_missing_api_key (now : Nat) (up : String → Option ApiResponse)
    (g : GoogleSource) (st : List News) (h : g.enabled = true) :
    googleFetch "" now up g st = (g, ⟨st, 0, []⟩) := by
  unfold googleFetch
  rw [if_neg (by rw [h]; simp)]
  rw [if_pos rfl]

/-- Closed instance of C10: the enabled initial Google source under an empty
key. -/
theorem C10_missing_api_key_witness :
    gSrc.enabled = true ∧
    googleFetch "" 3 (fun _ => some { status := 200, claims := [cexClaim] }) gSrc [] =
      (gSrc, ⟨[], 0, []⟩) :=
  ⟨rfl, C10_missing_api_key 3 _ gSrc [] rfl⟩

/-! ### Run-statistics behaviour of the RSS source (C8) -/

/-- C8 counterexample: a non-success HTTP status makes `RSSFeedSource.fetch`
return 0 through the early `return` at line 149, *without* updating the run
statistics — `last_run` stays unset instead of being set to the run's time. -/
theorem C8_stats_on_non200_counterexample :
    rssS0.enabled = true ∧
    (rssFetch 5 (HttpDoc.response 500 []) rssS0 []).1 = rssS0 ∧
    (rssFetch 5 (HttpDoc.response 500 []) rssS0 []).1.stats.last_run ≠ some 5 ∧
    (rssFetch 5 (HttpDoc.response 500 []) rssS0 []).2.cnt = 0 := by
  decide

/-- C8 (amended): on an enabled RSS source the run statistics are updated —
`last_run` set to the run's instant, `last_count` to the run's count and
`total_count` increased by it — on every outcome *except* a non-success
HTTP status, where fetch returns 0 leaving the source (statistics included)
untouched. -/
theorem C8_stats_update_amended (now : Nat) (s : RssSource) (st : List News)
    (h : s.enabled = true) :
    ((rssFetch now HttpDoc.netError s st).1.stats = updateStats now s.stats 0) ∧
    (∀ (status : Nat) (entries : List RssEntry), status ≠ 200 →
      (rssFetch now (HttpDoc.response status entries) s st).1 = s ∧
      (rssFetch now (HttpDoc.response status entries) s st).2 =
        ⟨st, 0, [s.feed_url]⟩) ∧
    (∀ entries : List RssEntry,
      (rssFetch now (HttpDoc.response 200 entries) s st).1.stats =
        updateStats now s.stats
          ((rssFetch now (HttpDoc.response 200 entries) s st).2.cnt)) := by
  refine ⟨?_, fun status entries hst => ?_, fun entries => ?_⟩
  · simp [rssFetch, h]
  · constructor <;> simp [rssFetch, h, hst]
  · simp [rssFetch, h]

/-- Closed instance of C8 (amended): a network error updates the stats. -/
theorem C8_stats_update_witness :
    (rssFetch 9 HttpDoc.netError rssS0 []).1.stats = updateStats 9 rssS0.stats 0 :=
  (C8_stats_update_amended 9 rssS0 [] rfl).1

/-! ### Summary length (C6) -/

/-- Truncation to `n` characters yields a string of length at most `n`. -/
theorem strTake_length (s : String) (n : Nat) : (strTake s n).length ≤ n := by
  have h : (strTake s n).length = (s.toList.take n).length := rfl
  rw [h]
  exact List.length_take_le _ _

set_option maxRecDepth 8000 in
/-- C6 counterexample: the Google variant stores the claim text as `summary`
uncapped (line 116) — a 501-character claim text is persisted at length
501. -/
theorem C6_summary_cap_counterexample :
    ¬ (∀ n ∈ (googleFetch "key" 0 cexUp gSrc []).2.news, n.summary.length ≤ 500) := by
  decide

/-- The record built from a ClaimReview object carries a summary of at most
500 characters. -/
theorem buildFromCR_summary (selfName lang : String) (now : Nat)
    (pt : Option String) (url : String) (c : LdObj) :
    (buildFromCR selfName lang now pt url c).summary.length ≤ 500 := by
  show (if orElseStr c.itemName (orElseStr c.itemText "Fact Check") = ""
      then "Verificação"
      else strTake (orElseStr c.itemName (orElseStr c.itemText "Fact Check")) 500).length ≤ 500
  split
  · decide
  · exact strTake_length _ _

/-- A feed entry step only appends records whose summary is capped. -/
theorem rssEntryStep_cap (now : Nat) (name lang : String) (p : List News × Nat)
    (e : RssEntry) :
    ∀ n ∈ (rssEntryStep now name lang p e).1, n ∈ p.1 ∨ n.summary.length ≤ 500 := by
  intro n hn
  unfold rssEntryStep at hn
  split at hn
  · exact Or.inl hn
  · split at hn
    · exact Or.inl hn
    · rcases List.mem_append.mp hn with hmem | hmem
      · exact Or.inl hmem
      · right
        have hm := List.mem_singleton.mp hmem
        subst hm
        exact strTake_length _ _

/-- A scraped-link step only appends records whose summary is capped. -/
theorem scrapeLinkStep_cap (selfName lang : String) (now : Nat)
    (linkUp : String → HttpDoc ArticlePage) (p : List News × Nat × List String)
    (link : String) :
    ∀ n ∈ (scrapeLinkStep selfName lang now linkUp p link).1,
      n ∈ p.1 ∨ n.summary.length ≤ 500 := by
  intro n hn
  unfold scrapeLinkStep at hn
  split at hn
  · exact Or.inl hn
  · split at hn
    · exact Or.inl hn
    · split at hn
      · split at hn
        · next m hm =>
          rcases List.mem_append.mp hn with hmem | hmem
          · exact Or.inl hmem
          · right
            have hnm : n = m := List.mem_singleton.mp hmem
            subst hnm
            rcases Option.map_eq_some'.mp
              (by unfold parseArticle at hm; exact hm) with ⟨c, _, hfc⟩
            rw [← hfc]
            exact buildFromCR_summary _ _ _ _ _ _
        · exact Or.inl hn
      · exact Or.inl hn

/-- A seed step only appends records whose summary is capped. -/
theorem scrapeSeedStep_cap (selfName lang : String) (now : Nat)
    (seedUp : String → HttpDoc (List String)) (linkUp : String → HttpDoc ArticlePage)
    (st₀ : List News) (p : List News × Nat × List String) (seed : String)
    (hp : ∀ n ∈ p.1, n ∈ st₀ ∨ n.summary.length ≤ 500) :
    ∀ n ∈ (scrapeSeedStep selfName lang now seedUp linkUp p seed).1,
      n ∈ st₀ ∨ n.summary.length ≤ 500 := by
  intro n hn
  unfold scrapeSeedStep at hn
  split at hn
  · exact hp n hn
  · split at hn
    · refine foldl_inv_mem
        (fun q => ∀ m ∈ q.1, m ∈ st₀ ∨ m.summary.length ≤ 500)
        (scrapeLinkStep selfName lang now linkUp) _
        (fun q l _ hq m hm => ?_) (p.1, p.2.1, p.2.2 ++ [seed]) hp n hn
      rcases scrapeLinkStep_cap selfName lang now linkUp q l m hm with h | h
      · exact hq m h
      · exact Or.inr h
    · exact hp n hn

/-- C6 (amended): every record persisted by the RSS and scraper variants has
a summary of at most 500 characters (each appended record is capped; the
Google variant, by the counterexample, stores the claim text uncapped). -/
theorem C6_summary_cap_feed_scrape :
    (∀ (now : Nat) (up : HttpDoc (List RssEntry)) (s : RssSource) (st : List News),
      ∀ n ∈ (rssFetch now up s st).2.news, n ∈ st ∨ n.summary.length ≤ 500) ∧
    (∀ (now : Nat) (seedUp : String → HttpDoc (List String))
        (linkUp : String → HttpDoc ArticlePage) (s : ScrapeSource) (st : List News),
      ∀ n ∈ (scrapeFetch now seedUp linkUp s st).2.news,
        n ∈ st ∨ n.summary.length ≤ 500) := by
  constructor
  · intro now up s st n hn
    unfold rssFetch at hn
    split at hn
    · exact Or.inl hn
    · split at hn
      · exact Or.inl hn
      · split at hn
        · exact Or.inl hn
        · refine foldl_inv_mem
            (fun q => ∀ m ∈ q.1, m ∈ st ∨ m.summary.length ≤ 500)
            (rssEntryStep now s.name s.language) _
            (fun q e _ hq m hm => ?_) (st, 0) (fun m hm => Or.inl hm) n hn
          rcases rssEntryStep_cap now s.name s.language q e m hm with h | h
          · exact hq m h
          · exact Or.inr h
  · intro now seedUp linkUp s st n hn
    unfold scrapeFetch at hn
    split at hn
    · exact Or.inl hn
    · exact foldl_inv_mem
        (fun q => ∀ m ∈ q.1, m ∈ st ∨ m.summary.length ≤ 500)
        (scrapeSeedStep s.name s.language now seedUp linkUp) s.urls
        (fun q seed _ hq =>
          scrapeSeedStep_cap s.name s.language now seedUp linkUp st q seed hq)
        (st, 0, []) (fun m hm => Or.inl hm) n hn

/-- Closed instance of C6 (amended): an RSS fetch against a dead network on
an empty store yields only capped summaries (vacuously, no records). -/
theorem C6_summary_cap_witness :
    ∀ n ∈ (rssFetch 0 HttpDoc.netError rssS0 []).2.news,
      n ∈ ([] : List News) ∨ n.summary.length ≤ 500 :=
  C6_summary_cap_feed_scrape.1 0 HttpDoc.netError rssS0 []

/-! ### Root-relative link resolution (C7) -/

/-- C7 counterexample: on the configured Observador seed — whose URL carries
the path `/factcheck` — a root-relative href is concatenated to the full
seed URL (line 225), not resolved against the seed's origin as the
specification describes. -/
theorem C7_origin_resolution_counterexample :
    normHref "https://observador.pt/factcheck" "/politica/x" =
      some "https://observador.pt/factcheck/politica/x" ∧
    specResolve "https://observador.pt/factcheck" "/politica/x" =
      "https://observador.pt/politica/x" ∧
    ("https://observador.pt/factcheck/politica/x" : String) ≠
      "https://observador.pt/politica/x" := by
  decide

/-- A prefix match forces the first characters to agree. -/
theorem matchAt_head {a c : Char} {rest t : List Char}
    (h : matchAt (a :: rest) (c :: t) = true) :
    a = c ∧ matchAt rest t = true := by
  have h' := h
  unfold matchAt at h'
  rw [Bool.and_eq_true] at h'
  exact ⟨by simpa using h'.1, h'.2⟩

/-- A href that starts with `/` is non-empty and starts with neither `#` nor
`javascript:`. -/
theorem slash_href_facts {href : String} (h : strStarts href "/" = true) :
    ¬ href = "" ∧ strStarts href "#" = false ∧
      strStarts href "javascript:" = false := by
  unfold strStarts at h ⊢
  rw [show ("/" : String).toList = ['/'] from rfl] at h
  rw [show ("#" : String).toList = ['#'] from rfl,
      show ("javascript:" : String).toList = 'j' :: "avascript:".toList from rfl]
  cases hl : href.toList with
  | nil => rw [hl] at h; cases h
  | cons c t =>
    rw [hl] at h
    have hc : c = '/' := (matchAt_head h).1.symm
    subst hc
    refine ⟨?_, ?_, ?_⟩
    · intro he
      rw [he] at hl
      cases hl
    · unfold matchAt
      rw [show (('#' == '/') : Bool) = false from rfl]
      rfl
    · unfold matchAt
      rw [show (('j' == '/') : Bool) = false from rfl]
      rfl

/-- C7 (amended): for every root-relative href passing the triviality filter
(length at least 10), the candidate link equals the seed URL stripped of
trailing slashes concatenated with the href; this coincides with the spec's
origin resolution exactly when the seed URL (so stripped) is its own origin,
i.e. carries no path. -/
theorem C7_root_relative_concat (seed href : String)
    (h1 : strStarts href "/" = true) (hlen : 10 ≤ href.length) :
    normHref seed href = some (rstripSlash seed ++ href) ∧
    (rstripSlash seed = specOrigin seed →
      rstripSlash seed ++ href = specResolve seed href) := by
  obtain ⟨hne, hh, hj⟩ := slash_href_facts h1
  constructor
  · have hlt : ¬ (href.length < 10) := by omega
    simp [normHref, hne, hlt, hh, hj, h1]
  · intro he
    rw [he]
    rfl

/-- Closed instance of C7 (amended): a root-relative href on the Polígrafo
seed (whose URL is its own origin). -/
theorem C7_root_relative_witness :
    normHref "https://poligrafo.sapo.pt" "/fact-check/x" =
      some (rstripSlash "https://poligrafo.sapo.pt" ++ "/fact-check/x") ∧
    (rstripSlash "https://poligrafo.sapo.pt" = specOrigin "https://poligrafo.sapo.pt" →
      rstripSlash "https://poligrafo.sapo.pt" ++ "/fact-check/x" =
        specResolve "https://poligrafo.sapo.pt" "/fact-check/x") :=
  C7_root_relative_concat "https://poligrafo.sapo.pt" "/fact-check/x"
    (by decide) (by decide)

end TrueCheck
